import Mathlib

/-! Shallow embedding of `conn_pool.go`: a bounded MongoDB connection pool with
`Checkout`/`CheckIn` operations over two Go maps, `freeConnections` and
`connectionsInUse`, keyed by an MD5 content hash of the client.

Clients are modelled as natural-number ids handed out by a `World` oracle; the
oracle also decides whether each `mongo.NewClient` call (creation), each
`client.Connect` call (validation) and each `client.Disconnect` call (kill)
succeeds, and provides the hash function used as the identity key.  Go maps are
modelled as association lists with insert-overwrite semantics; map iteration
order is the list order (one refinement of Go's unspecified order).  Times are
`Int` nanoseconds; `time.Now()` calls within one operation are modelled as a
single instant `now` passed to the operation. -/

namespace Pool

/-- Mirrors Go `clientWithCreation`: the client handle plus its creation time
in nanoseconds. -/
structure ClientWithCreation where
  db : Nat
  creationTime : Int
  deriving Repr, DecidableEq

/-- Build a `ClientWithCreation` from a client id and a creation time. -/
def mkCWC (db : Nat) (t : Int) : ClientWithCreation :=
  { db := db, creationTime := t }

/-- A Go `map[[16]byte]clientWithCreation`, as an association list. -/
abbrev ConnMap := List (Nat × ClientWithCreation)

/-- Whether the key is present in the map. -/
def mapHasKey (m : ConnMap) (k : Nat) : Bool :=
  m.any (fun kv => kv.1 == k)

/-- Go map assignment `m[k] = v`: overwrite in place when the key is present,
otherwise add the binding. -/
def mapInsert (m : ConnMap) (k : Nat) (v : ClientWithCreation) : ConnMap :=
  if mapHasKey m k then m.map (fun kv => if kv.1 == k then (k, v) else kv)
  else m ++ [(k, v)]

/-- Go `delete(m, k)`. -/
def mapDelete (m : ConnMap) (k : Nat) : ConnMap :=
  m.filter (fun kv => kv.1 != k)

/-- The list of keys of the map. -/
def mapKeys (m : ConnMap) : List Nat := m.map Prod.fst

/-- Mirrors Go `ConnPool` (the connection string and the lock are not part of
the sequential data model; `poolSize` is a Go `int`, so it may be negative). -/
structure ConnPool where
  connectionsInUse : ConnMap
  freeConnections : ConnMap
  poolSize : Int
  expiry : Int
  deriving Repr, DecidableEq

/-- Mirrors Go `CreateConnPool`: empty maps, the given pool size, and the
fixed 5-minute expiry (300000000000 ns).  The Go function also returns a
`nil` error unconditionally. -/
def CreateConnPool (poolSize : Int) : ConnPool :=
  { connectionsInUse := []
    freeConnections := []
    poolSize := poolSize
    expiry := 300000000000 }

/-- Oracle for the external collaborators: `nextId` numbers the clients that
`mongo.NewClient` hands out; `createOk n` says whether the creation call that
would produce client `n` succeeds; `validateOk c` whether `Connect` on client
`c` succeeds; `killOk c` whether `Disconnect` on client `c` succeeds; `hash c`
is the MD5-of-serialized-content identity key of client `c`. -/
structure World where
  nextId : Nat
  createOk : Nat → Bool
  validateOk : Nat → Bool
  killOk : Nat → Bool
  hash : Nat → Nat

/-- Mirrors `(c *ConnPool) create`: ask the Connector for a new client. -/
def create (w : World) : Option Nat × World :=
  (if w.createOk w.nextId then some w.nextId else none,
   { w with nextId := w.nextId + 1 })

/-- Mirrors `(c *ConnPool) validate`: probe the client. -/
def validate (w : World) (client : Nat) : Bool := w.validateOk client

/-- Mirrors `(c *ConnPool) kill`: disconnect the client. -/
def kill (w : World) (client : Nat) : Bool := w.killOk client

/-- Mirrors `(c *ConnPool) createConnections`: create a client, validate it,
and on success register it in `freeConnections` under its hash.  `none` means
the Go function returned an error. -/
def createConnections (w : World) (now : Int) (p : ConnPool) :
    World × Option ConnPool :=
  match create w with
  | (none, w') => (w', none)
  | (some client, w') =>
    if validate w' client then
      let cwc : ClientWithCreation := { db := client, creationTime := now }
      (w', some { p with freeConnections :=
                    mapInsert p.freeConnections (w'.hash client) cwc })
    else (w', none)

/-- A counted `for` loop of `createConnections` calls that aborts on the first
failure, leaving the mutations of the earlier iterations in place (this models
both fill loops in Go `Checkout`).  The `Bool` is `false` when the loop
aborted with an error. -/
def fillLoop (now : Int) : World → ConnPool → Nat → World × ConnPool × Bool
  | w, p, 0 => (w, p, true)
  | w, p, n + 1 =>
    match createConnections w now p with
    | (w', none) => (w', p, false)
    | (w', some p') => fillLoop now w' p' n

/-- Outcome of the scan over `freeConnections` in Go `Checkout`: a client was
selected and returned, the whole Checkout returned an error (a `Disconnect`
of a discarded connection failed), or the loop finished without returning. -/
inductive ScanResult where
  | ret (client : Nat)
  | err
  | done
  deriving Repr, DecidableEq

/-- Mirrors the `for k, v := range c.freeConnections` loop of Go `Checkout`
(lines 71-96): an expired entry (age strictly greater than `expiry`) is
deleted and killed; otherwise an entry failing validation is deleted and
killed; otherwise the entry is moved to `connectionsInUse` with its
`creationTime` refreshed to `now` and its client is returned.  A failed kill
aborts the whole Checkout with an error.  The list argument is the sequence
of entries the iteration ranges over. -/
def scanFree (w : World) (now : Int) :
    ConnPool → List (Nat × ClientWithCreation) → ConnPool × ScanResult
  | p, [] => (p, ScanResult.done)
  | p, (k, v) :: rest =>
    if now - v.creationTime > p.expiry then
      let p' := { p with freeConnections := mapDelete p.freeConnections k }
      if kill w v.db then scanFree w now p' rest else (p', ScanResult.err)
    else if validate w v.db then
      let moved : ClientWithCreation := { db := v.db, creationTime := now }
      ({ p with freeConnections := mapDelete p.freeConnections k
                connectionsInUse := mapInsert p.connectionsInUse k moved },
       ScanResult.ret v.db)
    else
      let p' := { p with freeConnections := mapDelete p.freeConnections k }
      if kill w v.db then scanFree w now p' rest else (p', ScanResult.err)

/-- Mirrors the checkout-miss tail of Go `Checkout` (lines 100-109): create a
fresh client (without validating it) and register it directly in
`connectionsInUse` under its hash. -/
def checkoutMiss (w : World) (now : Int) (p : ConnPool) :
    World × ConnPool × Option Nat :=
  match create w with
  | (none, w') => (w', p, none)
  | (some client, w') =>
    let cwc : ClientWithCreation := { db := client, creationTime := now }
    (w', { p with connectionsInUse :=
             mapInsert p.connectionsInUse (w'.hash client) cwc },
     some client)

/-- The number of iterations of the top-up loop of Go `Checkout`
(`for i := len(free)+len(inUse); i <= poolSize; i++`): the bound is
inclusive, so the loop body runs `poolSize + 1 - total` times (and zero
times when the total already exceeds `poolSize`). -/
def gapFillCount (p : ConnPool) : Nat :=
  (p.poolSize + 1 -
    ((p.freeConnections.length : Int) +
     (p.connectionsInUse.length : Int))).toNat

/-- Mirrors Go `Checkout` (lines 48-110).  Phase 1: if both maps are empty,
run `createConnections` `poolSize` times (`for i := 0; i < poolSize; i++`).
Phase 2: run it once per `i` from the current total up to and including
`poolSize` (`for i := len(free)+len(inUse); i <= poolSize; i++`; the bound is
inclusive, so the loop runs `poolSize + 1 - total` times).  Phase 3: scan the
free map.  Phase 4: on a miss, create one connection directly into
`connectionsInUse`.  `none` in the last component means Go returned a non-nil
error. -/
def Checkout (w : World) (now : Int) (p : ConnPool) :
    World × ConnPool × Option Nat :=
  match
    (if p.freeConnections.length == 0 && p.connectionsInUse.length == 0 then
      fillLoop now w p p.poolSize.toNat
    else (w, p, true)) with
  | (w1, p1, ok1) =>
    if !ok1 then (w1, p1, none) else
    match fillLoop now w1 p1 (gapFillCount p1) with
    | (w2, p2, ok2) =>
      if !ok2 then (w2, p2, none) else
      if 0 < p2.freeConnections.length then
        match scanFree w2 now p2 p2.freeConnections with
        | (p3, ScanResult.ret client) => (w2, p3, some client)
        | (p3, ScanResult.err) => (w2, p3, none)
        | (p3, ScanResult.done) => checkoutMiss w2 now p3
      else checkoutMiss w2 now p2

/-- Mirrors Go `CheckIn` (lines 112-124): recompute the hash of the client,
delete it from `connectionsInUse` unconditionally, and re-insert it into
`freeConnections` with `creationTime` refreshed to `now` only when
`len(free) + len(inUse) < poolSize` after the deletion. -/
def CheckIn (w : World) (now : Int) (p : ConnPool) (client : Nat) : ConnPool :=
  let h := w.hash client
  let inUse2 := mapDelete p.connectionsInUse h
  let cwc : ClientWithCreation := { db := client, creationTime := now }
  if (p.freeConnections.length : Int) + (inUse2.length : Int) < p.poolSize then
    { p with connectionsInUse := inUse2
             freeConnections := mapInsert p.freeConnections h cwc }
  else { p with connectionsInUse := inUse2 }

/-- Number of tracked connections, `len(free) + len(inUse)`. -/
def totalLen (p : ConnPool) : Nat :=
  p.freeConnections.length + p.connectionsInUse.length

/-- Oracle on which every collaborator call succeeds and the identity hash is
injective (distinct clients never collide). -/
def goodWorld : World :=
  { nextId := 0
    createOk := fun _ => true
    validateOk := fun _ => true
    killOk := fun _ => true
    hash := fun n => n }

/-- A pool operation issued by a caller. -/
inductive Op where
  | checkout
  | checkin (client : Nat)
  deriving Repr, DecidableEq

/-- Run one operation (the result of a checkout is recorded in the pool and
oracle state; the returned client itself is dropped here). -/
def runOp (now : Int) (w : World) (p : ConnPool) : Op → World × ConnPool
  | Op.checkout => ((Checkout w now p).1, (Checkout w now p).2.1)
  | Op.checkin client => (w, CheckIn w now p client)

/-- Run a sequence of operations, all at the same instant `now`. -/
def runOps (now : Int) : World → ConnPool → List Op → World × ConnPool
  | w, p, [] => (w, p)
  | w, p, op :: rest =>
    runOps now (runOp now w p op).1 (runOp now w p op).2 rest

/-- Oracle identical to `goodWorld` except that the identity hash of client 2
collides with that of client 0 and the hash of client 5 collides with that of
client 1. -/
def collideWorld : World :=
  { nextId := 0
    createOk := fun _ => true
    validateOk := fun _ => true
    killOk := fun _ => true
    hash := fun n => if n == 2 then 0 else if n == 5 then 1 else n }

/-- Oracle on which every call succeeds but every client has the same
serialized content, so every identity hash is the same (the degenerate end of
content hashing). -/
def constHashWorld : World :=
  { nextId := 0
    createOk := fun _ => true
    validateOk := fun _ => true
    killOk := fun _ => true
    hash := fun _ => 0 }

/-- Oracle on which the first creation succeeds and every later creation
fails; validations and kills succeed; the hash is injective. -/
def failSecondWorld : World :=
  { nextId := 0
    createOk := fun n => n == 0
    validateOk := fun _ => true
    killOk := fun _ => true
    hash := fun n => n }

/-- Keys of the map have no duplicates (true of a real Go map). -/
def NodupKeys (m : ConnMap) : Prop := (mapKeys m).Nodup

/-- Every entry of the map is stored under the hash of its client, as every
insertion in the source computes the key (true of a real Go map built by this
pool, for a fixed hash function). -/
def KeysAreHash (w : World) (m : ConnMap) : Prop :=
  ∀ kv ∈ m, kv.1 = w.hash kv.2.db

/-- Every client stored in the map was handed out by an earlier creation
call, so its id is below the oracle's counter. -/
def FreshBound (w : World) (m : ConnMap) : Prop :=
  ∀ kv ∈ m, kv.2.db < w.nextId

/-- No identity key is present in both `freeConnections` and
`connectionsInUse`. -/
def DisjointMaps (p : ConnPool) : Prop :=
  ∀ k, mapHasKey p.freeConnections k = true →
    mapHasKey p.connectionsInUse k = true → False

instance NodupKeys.decidable (m : ConnMap) : Decidable (NodupKeys m) :=
  inferInstanceAs (Decidable (mapKeys m).Nodup)

instance KeysAreHash.decidable (w : World) (m : ConnMap) :
    Decidable (KeysAreHash w m) :=
  inferInstanceAs (Decidable (∀ kv ∈ m, kv.1 = w.hash kv.2.db))

instance FreshBound.decidable (w : World) (m : ConnMap) :
    Decidable (FreshBound w m) :=
  inferInstanceAs (Decidable (∀ kv ∈ m, kv.2.db < w.nextId))

/-- The inductive well-formedness invariant of a pool: both maps have
duplicate-free key lists, every entry is keyed by the hash of its client,
every stored client id is below the creation counter, and the two maps are
key-disjoint. -/
def PoolInv (w : World) (p : ConnPool) : Prop :=
  NodupKeys p.freeConnections ∧ NodupKeys p.connectionsInUse ∧
  KeysAreHash w p.freeConnections ∧ KeysAreHash w p.connectionsInUse ∧
  FreshBound w p.freeConnections ∧ FreshBound w p.connectionsInUse ∧
  DisjointMaps p

/-- The oracle `goodWorld` with its creation counter advanced to `a`. -/
def gw (a : Nat) : World :=
  { goodWorld with nextId := a }

/-- The association list of `n` entries for clients `a, …, a + n - 1`, each
stored under its own id (`goodWorld` hashes a client to itself) with creation
time `t`. -/
def entriesRange (t : Int) : Nat → Nat → ConnMap
  | _, 0 => []
  | a, n + 1 => (a, mkCWC a t) :: entriesRange t (a + 1) n

/-- Pool state reached after `k` successful checkouts (all at time `t`) from
a fresh pool of capacity `S` on `goodWorld`: clients `0, …, k - 1` are in use
and clients `k, …, S` are free (the fill phases created `S + 1` clients in
total: the top-up loop's inclusive bound adds one beyond the capacity). -/
def stateAfterK (t : Int) (S k : Nat) : ConnPool :=
  { connectionsInUse := entriesRange t 0 k
    freeConnections := entriesRange t k (S + 1 - k)
    poolSize := (S : Int)
    expiry := 300000000000 }

/-- Pool state in the middle of the check-in phase: after `N` checkouts from
a fresh capacity-`S` pool, clients `0, …, j - 1` have been checked back in
(`1 ≤ j ≤ N`): the first check-in was dropped because the pool still held
`S + 1` connections, and each later one was re-inserted into the free map. -/
def stateDuringCI (t : Int) (S N j : Nat) : ConnPool :=
  { connectionsInUse := entriesRange t j (N - j)
    freeConnections :=
      entriesRange t N (S + 1 - N) ++ entriesRange t 1 (j - 1)
    poolSize := (S : Int)
    expiry := 300000000000 }

/-- The list of results of `n` successive `Checkout` calls, all at time
`now`. -/
def returnedClients (now : Int) : World → ConnPool → Nat → List (Option Nat)
  | _, _, 0 => []
  | w, p, n + 1 =>
    (Checkout w now p).2.2 ::
      returnedClients now (Checkout w now p).1 (Checkout w now p).2.1 n

theorem mapHasKey_iff {m : ConnMap} {k : Nat} :
    mapHasKey m k = true ↔ ∃ kv ∈ m, kv.1 = k := by
  simp [mapHasKey, List.any_eq_true]

theorem mapHasKey_of_mem {m : ConnMap} {kv : Nat × ClientWithCreation}
    (h : kv ∈ m) : mapHasKey m kv.1 = true :=
  mapHasKey_iff.mpr ⟨kv, h, rfl⟩

theorem mapHasKey_eq_false_iff {m : ConnMap} {k : Nat} :
    mapHasKey m k = false ↔ ∀ kv ∈ m, kv.1 ≠ k := by
  constructor
  · intro h kv hkv heq
    have := mapHasKey_iff.mpr ⟨kv, hkv, heq⟩
    rw [h] at this
    cases this
  · intro h
    cases hcase : mapHasKey m k
    · rfl
    · rcases mapHasKey_iff.mp hcase with ⟨kv, hkv, heq⟩
      exact absurd heq (h kv hkv)

theorem mem_mapInsert {m : ConnMap} {k : Nat} {v : ClientWithCreation}
    {kv : Nat × ClientWithCreation} (h : kv ∈ mapInsert m k v) :
    kv = (k, v) ∨ kv ∈ m := by
  unfold mapInsert at h
  by_cases hk : mapHasKey m k
  · rw [if_pos hk] at h
    rcases List.mem_map.mp h with ⟨kv', hkv', heq⟩
    by_cases hkk : kv'.1 == k
    · rw [if_pos hkk] at heq
      exact Or.inl heq.symm
    · rw [if_neg hkk] at heq
      exact Or.inr (heq ▸ hkv')
  · rw [if_neg hk] at h
    rcases List.mem_append.mp h with h' | h'
    · exact Or.inr h'
    · exact Or.inl (List.mem_singleton.mp h')

theorem mapInsert_length {m : ConnMap} {k : Nat} {v : ClientWithCreation} :
    (mapInsert m k v).length =
      if mapHasKey m k then m.length else m.length + 1 := by
  unfold mapInsert
  by_cases hk : mapHasKey m k
  · rw [if_pos hk, if_pos hk, List.length_map]
  · rw [if_neg hk, if_neg hk, List.length_append, List.length_singleton]

theorem mapInsert_length_le {m : ConnMap} {k : Nat} {v : ClientWithCreation} :
    (mapInsert m k v).length ≤ m.length + 1 := by
  rw [mapInsert_length]
  split <;> omega

theorem mapInsert_append {m : ConnMap} {k : Nat} {v : ClientWithCreation}
    (h : mapHasKey m k = false) : mapInsert m k v = m ++ [(k, v)] := by
  unfold mapInsert
  rw [if_neg (by simp [h])]

theorem mapHasKey_mapInsert_self {m : ConnMap} {k : Nat}
    {v : ClientWithCreation} : mapHasKey (mapInsert m k v) k = true := by
  unfold mapInsert
  by_cases hk : mapHasKey m k
  · rw [if_pos hk]
    rcases mapHasKey_iff.mp hk with ⟨kv, hkv, hk1⟩
    refine mapHasKey_iff.mpr ⟨(k, v), ?_, rfl⟩
    refine List.mem_map.mpr ⟨kv, hkv, ?_⟩
    rw [if_pos (by simp [hk1])]
  · rw [if_neg hk]
    exact mapHasKey_iff.mpr ⟨(k, v), by simp, rfl⟩

theorem mapHasKey_mapInsert_imp {m : ConnMap} {k k' : Nat}
    {v : ClientWithCreation} (h : mapHasKey (mapInsert m k v) k' = true) :
    k' = k ∨ mapHasKey m k' = true := by
  rcases mapHasKey_iff.mp h with ⟨kv, hkv, hk1⟩
  rcases mem_mapInsert hkv with h' | h'
  · left
    rw [← hk1, h']
  · right
    exact hk1 ▸ mapHasKey_of_mem h'

theorem mapKeys_mapInsert_of_has {m : ConnMap} {k : Nat}
    {v : ClientWithCreation} (h : mapHasKey m k = true) :
    mapKeys (mapInsert m k v) = mapKeys m := by
  unfold mapInsert
  rw [if_pos h]
  unfold mapKeys
  rw [List.map_map]
  apply List.map_congr_left
  intro kv _
  by_cases hkk : kv.1 == k
  · simp only [Function.comp_apply, if_pos hkk]
    exact (beq_iff_eq.mp hkk).symm
  · simp only [Function.comp_apply, if_neg hkk]

theorem nodupKeys_mapInsert {m : ConnMap} {k : Nat} {v : ClientWithCreation}
    (h : NodupKeys m) : NodupKeys (mapInsert m k v) := by
  by_cases hk : mapHasKey m k
  · rw [NodupKeys, mapKeys_mapInsert_of_has hk]
    exact h
  · rw [NodupKeys, mapInsert, if_neg (by simp [hk]), mapKeys, List.map_append]
    rw [List.nodup_append]
    refine ⟨h, List.nodup_singleton _, ?_⟩
    intro a ha hb
    simp only [List.map_cons, List.map_nil, List.mem_singleton] at hb
    subst hb
    rcases List.mem_map.mp ha with ⟨kv, hkv, hk1⟩
    exact absurd (hk1 ▸ mapHasKey_of_mem hkv) (by simp [hk])

theorem mem_mapDelete {m : ConnMap} {k : Nat}
    {kv : Nat × ClientWithCreation} (h : kv ∈ mapDelete m k) :
    kv ∈ m ∧ kv.1 ≠ k := by
  rcases List.mem_filter.mp h with ⟨h1, h2⟩
  exact ⟨h1, by simpa using h2⟩

theorem mapDelete_length_le {m : ConnMap} {k : Nat} :
    (mapDelete m k).length ≤ m.length :=
  List.length_filter_le _ _

theorem mapHasKey_mapDelete_self {m : ConnMap} {k : Nat} :
    mapHasKey (mapDelete m k) k = false := by
  rw [mapHasKey_eq_false_iff]
  intro kv hkv
  exact (mem_mapDelete hkv).2

theorem mapHasKey_mapDelete_imp {m : ConnMap} {k k' : Nat}
    (h : mapHasKey (mapDelete m k) k' = true) : mapHasKey m k' = true := by
  rcases mapHasKey_iff.mp h with ⟨kv, hkv, hk1⟩
  exact hk1 ▸ mapHasKey_of_mem (mem_mapDelete hkv).1

theorem mapDelete_eq_self {m : ConnMap} {k : Nat}
    (h : mapHasKey m k = false) : mapDelete m k = m := by
  rw [mapHasKey_eq_false_iff] at h
  apply List.filter_eq_self.mpr
  intro kv hkv
  simpa using h kv hkv

theorem nodupKeys_mapDelete {m : ConnMap} {k : Nat} (h : NodupKeys m) :
    NodupKeys (mapDelete m k) := by
  unfold NodupKeys mapKeys at h ⊢
  exact List.Nodup.sublist (List.Sublist.map Prod.fst (List.filter_sublist m)) h

theorem mapDelete_cons {rest : ConnMap} {k : Nat} {v : ClientWithCreation}
    (h : mapHasKey rest k = false) :
    mapDelete ((k, v) :: rest) k = rest := by
  unfold mapDelete
  rw [List.filter_cons_of_neg (by simp)]
  exact mapDelete_eq_self h

theorem mapDelete_length_lt {m : ConnMap} {k : Nat}
    (h : mapHasKey m k = true) : (mapDelete m k).length < m.length := by
  rcases mapHasKey_iff.mp h with ⟨kv, hkv, hk1⟩
  apply List.length_filter_lt_length_iff_exists.mpr
  exact ⟨kv, hkv, by simp [hk1]⟩

theorem mapDelete_length_pred {m : ConnMap} {k : Nat} (hnd : NodupKeys m)
    (h : mapHasKey m k = true) : (mapDelete m k).length + 1 = m.length := by
  induction m with
  | nil => cases h
  | cons kv rest ih =>
    rw [NodupKeys, mapKeys, List.map_cons, List.nodup_cons] at hnd
    by_cases hk : kv.1 = k
    · have hrest : mapHasKey rest k = false := by
        rw [mapHasKey_eq_false_iff]
        intro kv' hkv' heq
        apply hnd.1
        rw [hk, ← heq]
        exact List.mem_map_of_mem Prod.fst hkv'
      have hdel : mapDelete (kv :: rest) k = rest := by
        rw [mapDelete, List.filter_cons_of_neg (by simp [hk])]
        exact mapDelete_eq_self hrest
      rw [hdel, List.length_cons]
    · have hrest : mapHasKey rest k = true := by
        cases hr : mapHasKey rest k
        · exfalso
          rcases mapHasKey_iff.mp h with ⟨kv', hkv', heq⟩
          rcases List.mem_cons.mp hkv' with heq' | hmem
          · exact hk (heq' ▸ heq)
          · rw [mapHasKey_eq_false_iff] at hr
            exact hr kv' hmem heq
        · rfl
      have hdel : mapDelete (kv :: rest) k = kv :: mapDelete rest k := by
        rw [mapDelete, List.filter_cons_of_pos (by simp [hk])]
        rfl
      have h2 := ih hnd.2 hrest
      rw [hdel, List.length_cons, List.length_cons]
      omega

theorem KeysAreHash_congr {w w' : World} {m : ConnMap}
    (hh : w'.hash = w.hash) (h : KeysAreHash w m) : KeysAreHash w' m := by
  intro kv hkv
  rw [hh]
  exact h kv hkv

theorem FreshBound_mono {w w' : World} {m : ConnMap}
    (hle : w.nextId ≤ w'.nextId) (h : FreshBound w m) : FreshBound w' m :=
  fun kv hkv => lt_of_lt_of_le (h kv hkv) hle

theorem createConnections_eq (w : World) (now : Int) (p : ConnPool) :
    createConnections w now p =
      ({ w with nextId := w.nextId + 1 },
       if w.createOk w.nextId && w.validateOk w.nextId then
         some { p with freeConnections :=
                         mapInsert p.freeConnections (w.hash w.nextId)
                           (mkCWC w.nextId now) }
       else none) := by
  unfold createConnections create validate
  cases hc : w.createOk w.nextId
  · simp [hc]
  · cases hv : w.validateOk w.nextId
    · simp [hc, hv]
    · simp [hc, hv, mkCWC]

theorem checkoutMiss_eq (w : World) (now : Int) (p : ConnPool) :
    checkoutMiss w now p =
      ({ w with nextId := w.nextId + 1 },
       if w.createOk w.nextId then
         { p with connectionsInUse :=
                    mapInsert p.connectionsInUse (w.hash w.nextId)
                      (mkCWC w.nextId now) }
       else p,
       if w.createOk w.nextId then some w.nextId else none) := by
  unfold checkoutMiss create
  cases hc : w.createOk w.nextId <;> simp [hc, mkCWC]

theorem fillLoop_succ_pos (now : Int) (w : World) (p : ConnPool) (n : Nat)
    (hc : (w.createOk w.nextId && w.validateOk w.nextId) = true) :
    fillLoop now w p (n + 1) =
      fillLoop now { w with nextId := w.nextId + 1 }
        { p with freeConnections :=
                   mapInsert p.freeConnections (w.hash w.nextId)
                     (mkCWC w.nextId now) } n := by
  rw [fillLoop, createConnections_eq, if_pos hc]

theorem fillLoop_succ_neg (now : Int) (w : World) (p : ConnPool) (n : Nat)
    (hc : ¬((w.createOk w.nextId && w.validateOk w.nextId) = true)) :
    fillLoop now w p (n + 1) = ({ w with nextId := w.nextId + 1 }, p, false) := by
  rw [fillLoop, createConnections_eq, if_neg hc]

theorem fillLoop_inUse (now : Int) (w : World) (p : ConnPool) (n : Nat) :
    ((fillLoop now w p n).2.1).connectionsInUse = p.connectionsInUse := by
  induction n generalizing w p with
  | zero => rfl
  | succ n ih =>
    by_cases hc : (w.createOk w.nextId && w.validateOk w.nextId) = true
    · rw [fillLoop_succ_pos now w p n hc]
      exact ih _ _
    · rw [fillLoop_succ_neg now w p n hc]

theorem fillLoop_poolSize (now : Int) (w : World) (p : ConnPool) (n : Nat) :
    ((fillLoop now w p n).2.1).poolSize = p.poolSize := by
  induction n generalizing w p with
  | zero => rfl
  | succ n ih =>
    by_cases hc : (w.createOk w.nextId && w.validateOk w.nextId) = true
    · rw [fillLoop_succ_pos now w p n hc]
      exact ih _ _
    · rw [fillLoop_succ_neg now w p n hc]

theorem fillLoop_expiry (now : Int) (w : World) (p : ConnPool) (n : Nat) :
    ((fillLoop now w p n).2.1).expiry = p.expiry := by
  induction n generalizing w p with
  | zero => rfl
  | succ n ih =>
    by_cases hc : (w.createOk w.nextId && w.validateOk w.nextId) = true
    · rw [fillLoop_succ_pos now w p n hc]
      exact ih _ _
    · rw [fillLoop_succ_neg now w p n hc]

theorem fillLoop_hash (now : Int) (w : World) (p : ConnPool) (n : Nat) :
    ((fillLoop now w p n).1).hash = w.hash := by
  induction n generalizing w p with
  | zero => rfl
  | succ n ih =>
    by_cases hc : (w.createOk w.nextId && w.validateOk w.nextId) = true
    · rw [fillLoop_succ_pos now w p n hc]
      exact ih _ _
    · rw [fillLoop_succ_neg now w p n hc]

theorem fillLoop_nextId_le (now : Int) (w : World) (p : ConnPool) (n : Nat) :
    w.nextId ≤ ((fillLoop now w p n).1).nextId := by
  induction n generalizing w p with
  | zero => exact le_refl _
  | succ n ih =>
    by_cases hc : (w.createOk w.nextId && w.validateOk w.nextId) = true
    · rw [fillLoop_succ_pos now w p n hc]
      exact le_trans (Nat.le_succ _)
        (ih { w with nextId := w.nextId + 1 }
          { p with freeConnections :=
                     mapInsert p.freeConnections (w.hash w.nextId)
                       (mkCWC w.nextId now) })
    · rw [fillLoop_succ_neg now w p n hc]
      exact Nat.le_succ _

theorem fillLoop_free_length_le (now : Int) (w : World) (p : ConnPool)
    (n : Nat) :
    ((fillLoop now w p n).2.1).freeConnections.length ≤
      p.freeConnections.length + n := by
  induction n generalizing w p with
  | zero => exact le_refl _
  | succ n ih =>
    by_cases hc : (w.createOk w.nextId && w.validateOk w.nextId) = true
    · rw [fillLoop_succ_pos now w p n hc]
      refine le_trans (ih _ _) ?_
      have hlen := @mapInsert_length p.freeConnections (w.hash w.nextId)
        (mkCWC w.nextId now)
      show (mapInsert p.freeConnections (w.hash w.nextId)
        (mkCWC w.nextId now)).length + n ≤ p.freeConnections.length + (n + 1)
      split at hlen <;> omega
    · rw [fillLoop_succ_neg now w p n hc]
      exact Nat.le_add_right _ _

theorem fillLoop_nodup (now : Int) (w : World) (p : ConnPool) (n : Nat)
    (h : NodupKeys p.freeConnections) :
    NodupKeys ((fillLoop now w p n).2.1).freeConnections := by
  induction n generalizing w p with
  | zero => exact h
  | succ n ih =>
    by_cases hc : (w.createOk w.nextId && w.validateOk w.nextId) = true
    · rw [fillLoop_succ_pos now w p n hc]
      exact ih _ _ (nodupKeys_mapInsert h)
    · rw [fillLoop_succ_neg now w p n hc]
      exact h

theorem fillLoop_free_mem (now : Int) (w : World) (p : ConnPool) (n : Nat) :
    ∀ kv ∈ ((fillLoop now w p n).2.1).freeConnections,
      kv ∈ p.freeConnections ∨
      (kv.1 = w.hash kv.2.db ∧ w.nextId ≤ kv.2.db ∧
        kv.2.creationTime = now) := by
  induction n generalizing w p with
  | zero => exact fun kv hkv => Or.inl hkv
  | succ n ih =>
    by_cases hc : (w.createOk w.nextId && w.validateOk w.nextId) = true
    · rw [fillLoop_succ_pos now w p n hc]
      intro kv hkv
      rcases ih _ _ kv hkv with hmem | hfresh
      · rcases mem_mapInsert hmem with heq | hold
        · right
          rw [heq]
          exact ⟨rfl, le_refl _, rfl⟩
        · exact Or.inl hold
      · right
        exact ⟨hfresh.1, le_trans (Nat.le_succ _) hfresh.2.1, hfresh.2.2⟩
    · rw [fillLoop_succ_neg now w p n hc]
      exact fun kv hkv => Or.inl hkv

theorem fillLoop_keysHash (now : Int) (w : World) (p : ConnPool) (n : Nat)
    (h : KeysAreHash w p.freeConnections) :
    KeysAreHash w ((fillLoop now w p n).2.1).freeConnections := by
  intro kv hkv
  rcases fillLoop_free_mem now w p n kv hkv with hmem | hfresh
  · exact h kv hmem
  · exact hfresh.1

theorem NodupKeys_tail {k : Nat} {v : ClientWithCreation} {rest : ConnMap}
    (hnd : NodupKeys ((k, v) :: rest)) :
    NodupKeys rest ∧ mapHasKey rest k = false := by
  rw [NodupKeys, mapKeys, List.map_cons, List.nodup_cons] at hnd
  refine ⟨hnd.2, ?_⟩
  rw [mapHasKey_eq_false_iff]
  intro kv' hkv' hk1
  exact hnd.1 (List.mem_map.mpr ⟨kv', hkv', hk1⟩)

theorem scanFree_not_ret_inUse (w : World) (now : Int) :
    ∀ (entries : List (Nat × ClientWithCreation)) (p p' : ConnPool)
      (r : ScanResult), scanFree w now p entries = (p', r) →
      (∀ c, r ≠ ScanResult.ret c) →
      p'.connectionsInUse = p.connectionsInUse
  | [], p, p', r, heq, _ => by
    simp only [scanFree, Prod.mk.injEq] at heq
    rw [← heq.1]
  | (k, v) :: rest, p, p', r, heq, hr => by
    simp only [scanFree] at heq
    split_ifs at heq with h1 h2 h3 h4
    · exact scanFree_not_ret_inUse w now rest
        { p with freeConnections := mapDelete p.freeConnections k } p' r heq hr
    · simp only [Prod.mk.injEq] at heq
      rw [← heq.1]
    · simp only [Prod.mk.injEq] at heq
      exact absurd heq.2.symm (hr v.db)
    · exact scanFree_not_ret_inUse w now rest
        { p with freeConnections := mapDelete p.freeConnections k } p' r heq hr
    · simp only [Prod.mk.injEq] at heq
      rw [← heq.1]

theorem scanFree_meta (w : World) (now : Int) :
    ∀ (entries : List (Nat × ClientWithCreation)) (p p' : ConnPool)
      (r : ScanResult), scanFree w now p entries = (p', r) →
      p'.poolSize = p.poolSize ∧ p'.expiry = p.expiry
  | [], p, p', r, heq => by
    simp only [scanFree, Prod.mk.injEq] at heq
    rw [← heq.1]
    exact ⟨rfl, rfl⟩
  | (k, v) :: rest, p, p', r, heq => by
    simp only [scanFree] at heq
    split_ifs at heq with h1 h2 h3 h4
    · exact scanFree_meta w now rest
        { p with freeConnections := mapDelete p.freeConnections k } p' r heq
    · simp only [Prod.mk.injEq] at heq
      rw [← heq.1]
      exact ⟨rfl, rfl⟩
    · simp only [Prod.mk.injEq] at heq
      rw [← heq.1]
      exact ⟨rfl, rfl⟩
    · exact scanFree_meta w now rest
        { p with freeConnections := mapDelete p.freeConnections k } p' r heq
    · simp only [Prod.mk.injEq] at heq
      rw [← heq.1]
      exact ⟨rfl, rfl⟩

theorem scanFree_total_le (w : World) (now : Int) :
    ∀ (entries : List (Nat × ClientWithCreation)) (p p' : ConnPool)
      (r : ScanResult), p.freeConnections = entries → NodupKeys entries →
      scanFree w now p entries = (p', r) → totalLen p' ≤ totalLen p
  | [], p, p', r, _, _, heq => by
    simp only [scanFree, Prod.mk.injEq] at heq
    rw [← heq.1]
  | (k, v) :: rest, p, p', r, hfree, hnd, heq => by
    obtain ⟨hnd', hknotin⟩ := NodupKeys_tail hnd
    have hdel : mapDelete p.freeConnections k = rest := by
      rw [hfree]
      exact mapDelete_cons hknotin
    have hlenp : totalLen p = rest.length + p.connectionsInUse.length + 1 := by
      rw [totalLen, hfree, List.length_cons]
      omega
    simp only [scanFree] at heq
    split_ifs at heq with h1 h2 h3 h4
    · have hrec := scanFree_total_le w now rest
        { p with freeConnections := mapDelete p.freeConnections k } p' r
        hdel hnd' heq
      have hrec' : totalLen p' ≤
          (mapDelete p.freeConnections k).length +
            p.connectionsInUse.length := hrec
      rw [hdel] at hrec'
      omega
    · simp only [Prod.mk.injEq] at heq
      rw [← heq.1]
      show (mapDelete p.freeConnections k).length +
        p.connectionsInUse.length ≤ totalLen p
      rw [hdel]
      omega
    · simp only [Prod.mk.injEq] at heq
      rw [← heq.1]
      show (mapDelete p.freeConnections k).length +
        (mapInsert p.connectionsInUse k (mkCWC v.db now)).length ≤ totalLen p
      have h5 := @mapInsert_length p.connectionsInUse k (mkCWC v.db now)
      rw [hdel]
      split at h5 <;> omega
    · have hrec := scanFree_total_le w now rest
        { p with freeConnections := mapDelete p.freeConnections k } p' r
        hdel hnd' heq
      have hrec' : totalLen p' ≤
          (mapDelete p.freeConnections k).length +
            p.connectionsInUse.length := hrec
      rw [hdel] at hrec'
      omega
    · simp only [Prod.mk.injEq] at heq
      rw [← heq.1]
      show (mapDelete p.freeConnections k).length +
        p.connectionsInUse.length ≤ totalLen p
      rw [hdel]
      omega

theorem scanFree_ret_char (w : World) (now : Int) :
    ∀ (entries : List (Nat × ClientWithCreation)) (p p' : ConnPool) (c : Nat),
      p.freeConnections = entries → NodupKeys entries →
      scanFree w now p entries = (p', ScanResult.ret c) →
      ∃ k v, (k, v) ∈ entries ∧ v.db = c ∧
        ¬(now - v.creationTime > p.expiry) ∧ w.validateOk c = true ∧
        p'.connectionsInUse = mapInsert p.connectionsInUse k (mkCWC c now)
  | [], p, p', c, _, _, heq => by
    simp only [scanFree, Prod.mk.injEq] at heq
    exact absurd heq.2 (by simp)
  | (k, v) :: rest, p, p', c, hfree, hnd, heq => by
    obtain ⟨hnd', hknotin⟩ := NodupKeys_tail hnd
    have hdel : mapDelete p.freeConnections k = rest := by
      rw [hfree]
      exact mapDelete_cons hknotin
    simp only [scanFree] at heq
    split_ifs at heq with h1 h2 h3 h4
    · obtain ⟨k', v', hmem, hdb, hexp, hval, hin⟩ := scanFree_ret_char w now
        rest { p with freeConnections := mapDelete p.freeConnections k } p' c
        hdel hnd' heq
      exact ⟨k', v', List.mem_cons_of_mem _ hmem, hdb, hexp, hval, hin⟩
    · simp only [Prod.mk.injEq] at heq
      exact absurd heq.2 (by simp)
    · simp only [Prod.mk.injEq, ScanResult.ret.injEq] at heq
      refine ⟨k, v, List.mem_cons_self _ _, heq.2, h1, ?_, ?_⟩
      · rw [← heq.2]
        exact h3
      · rw [← heq.1, ← heq.2]
        rfl
    · obtain ⟨k', v', hmem, hdb, hexp, hval, hin⟩ := scanFree_ret_char w now
        rest { p with freeConnections := mapDelete p.freeConnections k } p' c
        hdel hnd' heq
      exact ⟨k', v', List.mem_cons_of_mem _ hmem, hdb, hexp, hval, hin⟩
    · simp only [Prod.mk.injEq] at heq
      exact absurd heq.2 (by simp)

theorem scanFree_done_free (w : World) (now : Int) :
    ∀ (entries : List (Nat × ClientWithCreation)) (p p' : ConnPool),
      p.freeConnections = entries → NodupKeys entries →
      scanFree w now p entries = (p', ScanResult.done) →
      p'.freeConnections = []
  | [], p, p', hfree, _, heq => by
    simp only [scanFree, Prod.mk.injEq] at heq
    rw [← heq.1, hfree]
  | (k, v) :: rest, p, p', hfree, hnd, heq => by
    obtain ⟨hnd', hknotin⟩ := NodupKeys_tail hnd
    have hdel : mapDelete p.freeConnections k = rest := by
      rw [hfree]
      exact mapDelete_cons hknotin
    simp only [scanFree] at heq
    split_ifs at heq with h1 h2 h3 h4
    · exact scanFree_done_free w now rest
        { p with freeConnections := mapDelete p.freeConnections k } p'
        hdel hnd' heq
    · simp only [Prod.mk.injEq] at heq
      exact absurd heq.2 (by simp)
    · simp only [Prod.mk.injEq] at heq
      exact absurd heq.2 (by simp)
    · exact scanFree_done_free w now rest
        { p with freeConnections := mapDelete p.freeConnections k } p'
        hdel hnd' heq
    · simp only [Prod.mk.injEq] at heq
      exact absurd heq.2 (by simp)

theorem Checkout_none_inUse (w : World) (now : Int) (p : ConnPool)
    (w' : World) (p' : ConnPool)
    (heq : Checkout w now p = (w', p', none)) :
    p'.connectionsInUse = p.connectionsInUse := by
  unfold Checkout at heq
  split at heq
  rename_i w1 p1 ok1 hfl1
  have hinuse1 : p1.connectionsInUse = p.connectionsInUse := by
    split at hfl1
    · have h2 := fillLoop_inUse now w p p.poolSize.toNat
      rw [hfl1] at h2
      exact h2
    · simp only [Prod.mk.injEq] at hfl1
      rw [← hfl1.2.1]
  cases ok1 with
  | false =>
    simp only [Bool.not_false, if_true, Prod.mk.injEq] at heq
    rw [← heq.2.1, hinuse1]
  | true =>
    simp only [Bool.not_true, Bool.false_eq_true, if_false] at heq
    rcases hfl2 : fillLoop now w1 p1 (gapFillCount p1) with ⟨w2, p2, ok2⟩
    rw [hfl2] at heq
    have hinuse2 : p2.connectionsInUse = p1.connectionsInUse := by
      have h2 := fillLoop_inUse now w1 p1 (gapFillCount p1)
      rw [hfl2] at h2
      exact h2
    dsimp only at heq
    cases ok2 with
    | false =>
      simp only [Bool.not_false, if_true, Prod.mk.injEq] at heq
      rw [← heq.2.1, hinuse2, hinuse1]
    | true =>
      simp only [Bool.not_true, Bool.false_eq_true, if_false] at heq
      split at heq
      · split at heq
        · rename_i p3 client hs
          simp only [Prod.mk.injEq] at heq
          exact absurd heq.2.2 (by simp)
        · rename_i p3 hs
          simp only [Prod.mk.injEq] at heq
          have h3 := scanFree_not_ret_inUse w2 now p2.freeConnections p2 p3
            ScanResult.err hs (by intro c h; cases h)
          rw [← heq.2.1, h3, hinuse2, hinuse1]
        · rename_i p3 hs
          rw [checkoutMiss_eq] at heq
          by_cases hc : w2.createOk w2.nextId = true
          · rw [if_pos hc, if_pos hc] at heq
            simp only [Prod.mk.injEq] at heq
            exact absurd heq.2.2 (by simp)
          · rw [if_neg hc, if_neg hc] at heq
            simp only [Prod.mk.injEq] at heq
            have h3 := scanFree_not_ret_inUse w2 now p2.freeConnections p2 p3
              ScanResult.done hs (by intro c h; cases h)
            rw [← heq.2.1, h3, hinuse2, hinuse1]
      · rw [checkoutMiss_eq] at heq
        by_cases hc : w2.createOk w2.nextId = true
        · rw [if_pos hc, if_pos hc] at heq
          simp only [Prod.mk.injEq] at heq
          exact absurd heq.2.2 (by simp)
        · rw [if_neg hc, if_neg hc] at heq
          simp only [Prod.mk.injEq] at heq
          rw [← heq.2.1, hinuse2, hinuse1]

theorem Checkout_bound (w : World) (now : Int) (p : ConnPool)
    (w' : World) (p' : ConnPool) (r : Option Nat)
    (hnd : NodupKeys p.freeConnections)
    (hkh : KeysAreHash w p.freeConnections)
    (hb : (totalLen p : Int) ≤ p.poolSize)
    (heq : Checkout w now p = (w', p', r)) :
    (totalLen p' : Int) ≤ p.poolSize + 1 ∧ p'.poolSize = p.poolSize ∧
    w'.hash = w.hash ∧
    (∀ c, r = some c → mapHasKey p'.connectionsInUse (w.hash c) = true) := by
  unfold Checkout at heq
  split at heq
  rename_i w1 p1 ok1 hfl1
  have hphase1 : p1.connectionsInUse = p.connectionsInUse ∧
      p1.poolSize = p.poolSize ∧ p1.expiry = p.expiry ∧ w1.hash = w.hash ∧
      (totalLen p1 : Int) ≤ p.poolSize ∧ NodupKeys p1.freeConnections ∧
      KeysAreHash w p1.freeConnections := by
    split at hfl1
    · rename_i hemp
      simp only [Bool.and_eq_true, beq_iff_eq, List.length_eq_zero] at hemp
      have h2 := fillLoop_inUse now w p p.poolSize.toNat
      have h3 := fillLoop_poolSize now w p p.poolSize.toNat
      have h3e := fillLoop_expiry now w p p.poolSize.toNat
      have h4 := fillLoop_hash now w p p.poolSize.toNat
      have h5 := fillLoop_free_length_le now w p p.poolSize.toNat
      have h6 := fillLoop_nodup now w p p.poolSize.toNat hnd
      have h7 := fillLoop_keysHash now w p p.poolSize.toNat hkh
      rw [hfl1] at h2 h3 h3e h4 h5 h6 h7
      have h2' : p1.connectionsInUse = p.connectionsInUse := h2
      have h3' : p1.poolSize = p.poolSize := h3
      have h3e' : p1.expiry = p.expiry := h3e
      have h4' : w1.hash = w.hash := h4
      have h5' : p1.freeConnections.length ≤
          p.freeConnections.length + p.poolSize.toNat := h5
      have h6' : NodupKeys p1.freeConnections := h6
      have h7' : KeysAreHash w p1.freeConnections := h7
      refine ⟨h2', h3', h3e', h4', ?_, h6', h7'⟩
      have hfree0 : p.freeConnections.length = 0 := by
        rw [hemp.1]
        rfl
      have hiu0 : p.connectionsInUse.length = 0 := by
        rw [hemp.2]
        rfl
      have hlen2 : p1.connectionsInUse.length = p.connectionsInUse.length := by
        rw [h2']
      rw [totalLen] at hb ⊢
      omega
    · simp only [Prod.mk.injEq] at hfl1
      obtain ⟨hw1, hp1, _⟩ := hfl1
      subst hw1
      subst hp1
      exact ⟨rfl, rfl, rfl, rfl, hb, hnd, hkh⟩
  obtain ⟨hiu1, hps1, hex1, hh1, htot1, hnd1, hkh1⟩ := hphase1
  cases ok1 with
  | false =>
    simp only [Bool.not_false, if_true, Prod.mk.injEq] at heq
    obtain ⟨hw, hp, hr⟩ := heq
    subst hw
    subst hp
    refine ⟨by omega, hps1, hh1, ?_⟩
    intro c hc
    rw [← hr] at hc
    simp at hc
  | true =>
    simp only [Bool.not_true, Bool.false_eq_true, if_false] at heq
    rcases hfl2 : fillLoop now w1 p1 (gapFillCount p1) with ⟨w2, p2, ok2⟩
    rw [hfl2] at heq
    have h2 := fillLoop_inUse now w1 p1 (gapFillCount p1)
    have h3 := fillLoop_poolSize now w1 p1 (gapFillCount p1)
    have h3e := fillLoop_expiry now w1 p1 (gapFillCount p1)
    have h4 := fillLoop_hash now w1 p1 (gapFillCount p1)
    have h5 := fillLoop_free_length_le now w1 p1 (gapFillCount p1)
    have h6 := fillLoop_nodup now w1 p1 (gapFillCount p1) hnd1
    have h7 := fillLoop_keysHash now w1 p1 (gapFillCount p1)
      (KeysAreHash_congr hh1 hkh1)
    rw [hfl2] at h2 h3 h3e h4 h5 h6 h7
    have hiu2 : p2.connectionsInUse = p.connectionsInUse := by
      have h2' : p2.connectionsInUse = p1.connectionsInUse := h2
      rw [h2', hiu1]
    have hps2 : p2.poolSize = p.poolSize := by
      have h3' : p2.poolSize = p1.poolSize := h3
      rw [h3', hps1]
    have hex2 : p2.expiry = p.expiry := by
      have h3e' : p2.expiry = p1.expiry := h3e
      rw [h3e', hex1]
    have hh2 : w2.hash = w.hash := by
      have h4' : w2.hash = w1.hash := h4
      rw [h4', hh1]
    have hnd2 : NodupKeys p2.freeConnections := h6
    have hkh2 : KeysAreHash w p2.freeConnections :=
      KeysAreHash_congr hh1.symm (h7 : KeysAreHash w1 p2.freeConnections)
    have htot2 : (totalLen p2 : Int) ≤ p.poolSize + 1 := by
      have h5' : p2.freeConnections.length ≤ p1.freeConnections.length +
          ((p1.poolSize + 1 -
            ((p1.freeConnections.length : Int) +
             (p1.connectionsInUse.length : Int))).toNat) := h5
      have hlen2 : p2.connectionsInUse.length =
          p1.connectionsInUse.length := by
        have h2' : p2.connectionsInUse = p1.connectionsInUse := h2
        rw [h2']
      rw [totalLen] at htot1 ⊢
      omega
    dsimp only at heq
    cases ok2 with
    | false =>
      simp only [Bool.not_false, if_true, Prod.mk.injEq] at heq
      obtain ⟨hw, hp, hr⟩ := heq
      subst hw
      subst hp
      refine ⟨htot2, hps2, hh2, ?_⟩
      intro c hc
      rw [← hr] at hc
      simp at hc
    | true =>
      simp only [Bool.not_true, Bool.false_eq_true, if_false] at heq
      have hiulen : (p.connectionsInUse.length : Int) ≤ p.poolSize := by
        rw [totalLen] at hb
        omega
      split at heq
      · rename_i hpos
        split at heq
        · rename_i p3 client hs
          simp only [Prod.mk.injEq] at heq
          obtain ⟨hw, hp, hr⟩ := heq
          subst hw
          subst hp
          have htot3 := scanFree_total_le w2 now p2.freeConnections p2 p3
            (ScanResult.ret client) rfl hnd2 hs
          have hmeta3 := scanFree_meta w2 now p2.freeConnections p2 p3
            (ScanResult.ret client) hs
          refine ⟨by omega, by rw [hmeta3.1, hps2], hh2, ?_⟩
          intro c hc
          rw [← hr] at hc
          injection hc with hc2
          subst hc2
          obtain ⟨k, v, hmem, hdb, _, _, hin⟩ := scanFree_ret_char w2 now
            p2.freeConnections p2 p3 client rfl hnd2 hs
          have hk : k = w.hash client := by
            rw [← hdb]
            exact hkh2 (k, v) hmem
          rw [hin, ← hk]
          exact mapHasKey_mapInsert_self
        · rename_i p3 hs
          simp only [Prod.mk.injEq] at heq
          obtain ⟨hw, hp, hr⟩ := heq
          subst hw
          subst hp
          have htot3 := scanFree_total_le w2 now p2.freeConnections p2 p3
            ScanResult.err rfl hnd2 hs
          have hmeta3 := scanFree_meta w2 now p2.freeConnections p2 p3
            ScanResult.err hs
          refine ⟨by omega, by rw [hmeta3.1, hps2], hh2, ?_⟩
          intro c hc
          rw [← hr] at hc
          simp at hc
        · rename_i p3 hs
          have hfree3 : p3.freeConnections = [] :=
            scanFree_done_free w2 now p2.freeConnections p2 p3 rfl hnd2 hs
          have hiu3 : p3.connectionsInUse = p2.connectionsInUse :=
            scanFree_not_ret_inUse w2 now p2.freeConnections p2 p3
              ScanResult.done hs (by intro c h; cases h)
          have hmeta3 := scanFree_meta w2 now p2.freeConnections p2 p3
            ScanResult.done hs
          rw [checkoutMiss_eq] at heq
          by_cases hc : w2.createOk w2.nextId = true
          · rw [if_pos hc, if_pos hc] at heq
            simp only [Prod.mk.injEq] at heq
            obtain ⟨hw, hp, hr⟩ := heq
            subst hw
            subst hp
            have h9 : p3.connectionsInUse.length =
                p.connectionsInUse.length := by
              rw [hiu3, hiu2]
            have h10 : p3.freeConnections.length = 0 := by
              rw [hfree3]
              rfl
            have h8 := @mapInsert_length p3.connectionsInUse
              (w2.hash w2.nextId) (mkCWC w2.nextId now)
            refine ⟨?_, ?_, hh2, ?_⟩
            · show ((p3.freeConnections.length +
                (mapInsert p3.connectionsInUse (w2.hash w2.nextId)
                  (mkCWC w2.nextId now)).length : Nat) : Int) ≤
                p.poolSize + 1
              split at h8 <;> omega
            · show p3.poolSize = p.poolSize
              rw [hmeta3.1, hps2]
            · intro c hcc
              rw [← hr] at hcc
              injection hcc with hcc2
              subst hcc2
              show mapHasKey (mapInsert p3.connectionsInUse
                (w2.hash w2.nextId) (mkCWC w2.nextId now))
                (w.hash w2.nextId) = true
              rw [← hh2]
              exact mapHasKey_mapInsert_self
          · rw [if_neg hc, if_neg hc] at heq
            simp only [Prod.mk.injEq] at heq
            obtain ⟨hw, hp, hr⟩ := heq
            subst hw
            subst hp
            have htot3 := scanFree_total_le w2 now p2.freeConnections p2 p3
              ScanResult.done rfl hnd2 hs
            refine ⟨by omega, by rw [hmeta3.1, hps2], hh2, ?_⟩
            intro c hcc
            rw [← hr] at hcc
            simp at hcc
      · rename_i hneg
        have hfree2 : p2.freeConnections.length = 0 := by omega
        rw [checkoutMiss_eq] at heq
        by_cases hc : w2.createOk w2.nextId = true
        · rw [if_pos hc, if_pos hc] at heq
          simp only [Prod.mk.injEq] at heq
          obtain ⟨hw, hp, hr⟩ := heq
          subst hw
          subst hp
          have h9 : p2.connectionsInUse.length =
              p.connectionsInUse.length := by
            rw [hiu2]
          have h8 := @mapInsert_length p2.connectionsInUse
            (w2.hash w2.nextId) (mkCWC w2.nextId now)
          refine ⟨?_, ?_, hh2, ?_⟩
          · show ((p2.freeConnections.length +
              (mapInsert p2.connectionsInUse (w2.hash w2.nextId)
                (mkCWC w2.nextId now)).length : Nat) : Int) ≤
              p.poolSize + 1
            split at h8 <;> omega
          · show p2.poolSize = p.poolSize
            exact hps2
          · intro c hcc
            rw [← hr] at hcc
            injection hcc with hcc2
            subst hcc2
            show mapHasKey (mapInsert p2.connectionsInUse
              (w2.hash w2.nextId) (mkCWC w2.nextId now))
              (w.hash w2.nextId) = true
            rw [← hh2]
            exact mapHasKey_mapInsert_self
        · rw [if_neg hc, if_neg hc] at heq
          simp only [Prod.mk.injEq] at heq
          obtain ⟨hw, hp, hr⟩ := heq
          subst hw
          subst hp
          refine ⟨htot2, hps2, hh2, ?_⟩
          intro c hcc
          rw [← hr] at hcc
          simp at hcc

theorem CheckIn_total_le (w : World) (now : Int) (p : ConnPool) (c : Nat)
    (hk : mapHasKey p.connectionsInUse (w.hash c) = true)
    (htot : (totalLen p : Int) ≤ p.poolSize + 1) :
    (totalLen (CheckIn w now p c) : Int) ≤ p.poolSize := by
  have hdel := mapDelete_length_lt hk
  rw [totalLen] at htot
  simp only [CheckIn]
  split
  · rename_i hcond
    have hins := @mapInsert_length p.freeConnections (w.hash c) (mkCWC c now)
    show (((mapInsert p.freeConnections (w.hash c) (mkCWC c now)).length +
      (mapDelete p.connectionsInUse (w.hash c)).length : Nat) : Int) ≤
      p.poolSize
    split at hins <;> omega
  · rename_i hcond
    show ((p.freeConnections.length +
      (mapDelete p.connectionsInUse (w.hash c)).length : Nat) : Int) ≤
      p.poolSize
    omega

theorem CheckIn_removes (w : World) (now : Int) (p : ConnPool) (c : Nat) :
    mapHasKey (CheckIn w now p c).connectionsInUse (w.hash c) = false := by
  simp only [CheckIn]
  split
  · exact mapHasKey_mapDelete_self
  · exact mapHasKey_mapDelete_self

theorem CheckIn_untracked (w : World) (now : Int) (p : ConnPool) (c : Nat)
    (hk : mapHasKey p.connectionsInUse (w.hash c) = false) :
    (CheckIn w now p c).connectionsInUse = p.connectionsInUse ∧
    (p.poolSize ≤ (totalLen p : Int) →
      (CheckIn w now p c).freeConnections = p.freeConnections) := by
  have hdel : mapDelete p.connectionsInUse (w.hash c) = p.connectionsInUse :=
    mapDelete_eq_self hk
  rw [totalLen]
  simp only [CheckIn]
  split
  · rename_i hcond
    rw [hdel] at hcond
    constructor
    · show mapDelete p.connectionsInUse (w.hash c) = p.connectionsInUse
      exact hdel
    · intro hge
      omega
  · exact ⟨hdel, fun _ => rfl⟩

theorem CheckIn_tracked_at_capacity (w : World) (now : Int) (p : ConnPool)
    (c : Nat) (hk : mapHasKey p.connectionsInUse (w.hash c) = true)
    (hnd : NodupKeys p.connectionsInUse)
    (hfree : mapHasKey p.freeConnections (w.hash c) = false)
    (htot : (totalLen p : Int) = p.poolSize) :
    totalLen (CheckIn w now p c) = totalLen p ∧
    mapHasKey (CheckIn w now p c).freeConnections (w.hash c) = true := by
  have hdel := mapDelete_length_pred hnd hk
  rw [totalLen] at htot
  simp only [CheckIn]
  split
  · rename_i hcond
    have hins : (mapInsert p.freeConnections (w.hash c) (mkCWC c now)).length =
        p.freeConnections.length + 1 := by
      have h := @mapInsert_length p.freeConnections (w.hash c) (mkCWC c now)
      rw [hfree] at h
      simpa using h
    constructor
    · show (mapInsert p.freeConnections (w.hash c) (mkCWC c now)).length +
        (mapDelete p.connectionsInUse (w.hash c)).length = totalLen p
      rw [totalLen, hins]
      omega
    · show mapHasKey (mapInsert p.freeConnections (w.hash c) (mkCWC c now))
        (w.hash c) = true
      exact mapHasKey_mapInsert_self
  · rename_i hcond
    exfalso
    apply hcond
    show (p.freeConnections.length : Int) +
      ((mapDelete p.connectionsInUse (w.hash c)).length : Int) < p.poolSize
    omega

theorem Checkout_expired_not_returned (w : World) (now : Int) (p : ConnPool)
    (w' : World) (p' : ConnPool) (c : Nat)
    (hnd : NodupKeys p.freeConnections)
    (hdbs : (p.freeConnections.map (fun kv => kv.2.db)).Nodup)
    (hfresh : ∀ kv ∈ p.freeConnections, kv.2.db < w.nextId)
    (heq : Checkout w now p = (w', p', some c)) :
    ∀ kv ∈ p.freeConnections, p.expiry < now - kv.2.creationTime →
      c ≠ kv.2.db := by
  unfold Checkout at heq
  split at heq
  rename_i w1 p1 ok1 hfl1
  have hphase1 : (∀ kv ∈ p1.freeConnections,
      kv ∈ p.freeConnections ∨ w.nextId ≤ kv.2.db) ∧
      w.nextId ≤ w1.nextId ∧ NodupKeys p1.freeConnections ∧
      p1.expiry = p.expiry := by
    split at hfl1
    · have h1 := fillLoop_free_mem now w p p.poolSize.toNat
      have h2 := fillLoop_nextId_le now w p p.poolSize.toNat
      have h3 := fillLoop_nodup now w p p.poolSize.toNat hnd
      have h4 := fillLoop_expiry now w p p.poolSize.toNat
      rw [hfl1] at h1 h2 h3 h4
      refine ⟨?_, h2, h3, h4⟩
      intro kv hkv
      rcases h1 kv hkv with hmem | hfr
      · exact Or.inl hmem
      · exact Or.inr hfr.2.1
    · simp only [Prod.mk.injEq] at hfl1
      obtain ⟨hw1, hp1, _⟩ := hfl1
      subst hw1
      subst hp1
      exact ⟨fun kv hkv => Or.inl hkv, le_refl _, hnd, rfl⟩
  obtain ⟨hmem1, hn1, hnd1, hex1⟩ := hphase1
  cases ok1 with
  | false =>
    simp only [Bool.not_false, if_true, Prod.mk.injEq] at heq
    obtain ⟨_, _, hr⟩ := heq
    simp at hr
  | true =>
    simp only [Bool.not_true, Bool.false_eq_true, if_false] at heq
    rcases hfl2 : fillLoop now w1 p1 (gapFillCount p1) with ⟨w2, p2, ok2⟩
    rw [hfl2] at heq
    have h1 := fillLoop_free_mem now w1 p1 (gapFillCount p1)
    have h2 := fillLoop_nextId_le now w1 p1 (gapFillCount p1)
    have h3 := fillLoop_nodup now w1 p1 (gapFillCount p1) hnd1
    have h4 := fillLoop_expiry now w1 p1 (gapFillCount p1)
    rw [hfl2] at h1 h2 h3 h4
    have hmem2 : ∀ kv ∈ p2.freeConnections,
        kv ∈ p.freeConnections ∨ w.nextId ≤ kv.2.db := by
      intro kv hkv
      rcases (h1 : ∀ kv ∈ p2.freeConnections, _) kv hkv with hmem | hfr
      · exact hmem1 kv hmem
      · exact Or.inr (le_trans hn1 hfr.2.1)
    have hn2 : w.nextId ≤ w2.nextId := le_trans hn1 h2
    have hnd2 : NodupKeys p2.freeConnections := h3
    have hex2 : p2.expiry = p.expiry := by
      have h4' : p2.expiry = p1.expiry := h4
      rw [h4', hex1]
    dsimp only at heq
    cases ok2 with
    | false =>
      simp only [Bool.not_false, if_true, Prod.mk.injEq] at heq
      obtain ⟨_, _, hr⟩ := heq
      simp at hr
    | true =>
      simp only [Bool.not_true, Bool.false_eq_true, if_false] at heq
      intro kv0 hkv0 hexpired hcdb
      split at heq
      · rename_i hpos
        split at heq
        · rename_i p3 client hs
          simp only [Prod.mk.injEq] at heq
          obtain ⟨hw, hp, hr⟩ := heq
          injection hr with hr2
          obtain ⟨k, v, hmem, hdb, hexp, _, _⟩ := scanFree_ret_char w2 now
            p2.freeConnections p2 p3 client rfl hnd2 hs
          rcases hmem2 (k, v) hmem with hmemp | hfr
          · have hkveq : (k, v) = kv0 :=
              List.inj_on_of_nodup_map hdbs hmemp hkv0
                (show v.db = kv0.2.db by rw [hdb, hr2, hcdb])
            rw [hex2] at hexp
            apply hexp
            have hvt : v.creationTime = kv0.2.creationTime := by
              rw [← hkveq]
            rw [hvt]
            omega
          · have hfr' : w.nextId ≤ v.db := hfr
            have hlt := hfresh kv0 hkv0
            rw [hr2, hcdb] at hdb
            omega
        · rename_i p3 hs
          simp only [Prod.mk.injEq] at heq
          obtain ⟨_, _, hr⟩ := heq
          simp at hr
        · rename_i p3 hs
          rw [checkoutMiss_eq] at heq
          by_cases hc : w2.createOk w2.nextId = true
          · rw [if_pos hc, if_pos hc] at heq
            simp only [Prod.mk.injEq] at heq
            obtain ⟨_, _, hr⟩ := heq
            injection hr with hr2
            have hlt := hfresh kv0 hkv0
            rw [hcdb] at hr2
            omega
          · rw [if_neg hc, if_neg hc] at heq
            simp only [Prod.mk.injEq] at heq
            obtain ⟨_, _, hr⟩ := heq
            simp at hr
      · rename_i hneg
        rw [checkoutMiss_eq] at heq
        by_cases hc : w2.createOk w2.nextId = true
        · rw [if_pos hc, if_pos hc] at heq
          simp only [Prod.mk.injEq] at heq
          obtain ⟨_, _, hr⟩ := heq
          injection hr with hr2
          have hlt := hfresh kv0 hkv0
          rw [hcdb] at hr2
          omega
        · rw [if_neg hc, if_neg hc] at heq
          simp only [Prod.mk.injEq] at heq
          obtain ⟨_, _, hr⟩ := heq
          simp at hr

theorem KeysAreHash_mapDelete {w : World} {m : ConnMap} {k : Nat}
    (h : KeysAreHash w m) : KeysAreHash w (mapDelete m k) :=
  fun kv hkv => h kv (mem_mapDelete hkv).1

theorem FreshBound_mapDelete {w : World} {m : ConnMap} {k : Nat}
    (h : FreshBound w m) : FreshBound w (mapDelete m k) :=
  fun kv hkv => h kv (mem_mapDelete hkv).1

theorem KeysAreHash_mapInsert {w : World} {m : ConnMap} {k : Nat}
    {v : ClientWithCreation} (h : KeysAreHash w m) (hk : k = w.hash v.db) :
    KeysAreHash w (mapInsert m k v) := by
  intro kv hkv
  rcases mem_mapInsert hkv with heq | hmem
  · rw [heq]
    exact hk
  · exact h kv hmem

theorem FreshBound_mapInsert {w : World} {m : ConnMap} {k : Nat}
    {v : ClientWithCreation} (h : FreshBound w m) (hv : v.db < w.nextId) :
    FreshBound w (mapInsert m k v) := by
  intro kv hkv
  rcases mem_mapInsert hkv with heq | hmem
  · rw [heq]
    exact hv
  · exact h kv hmem

theorem PoolInv_mono_world {w w' : World} {p : ConnPool}
    (hh : w'.hash = w.hash) (hn : w.nextId ≤ w'.nextId) (h : PoolInv w p) :
    PoolInv w' p :=
  ⟨h.1, h.2.1, KeysAreHash_congr hh h.2.2.1, KeysAreHash_congr hh h.2.2.2.1,
   FreshBound_mono hn h.2.2.2.2.1, FreshBound_mono hn h.2.2.2.2.2.1,
   h.2.2.2.2.2.2⟩

theorem hash_fresh_not_in {w : World} {m : ConnMap}
    (hinj : Function.Injective w.hash) (hk : KeysAreHash w m)
    (hf : FreshBound w m) : mapHasKey m (w.hash w.nextId) = false := by
  rw [mapHasKey_eq_false_iff]
  intro kv hkv heq
  have h1 : kv.2.db = w.nextId := hinj (by rw [← hk kv hkv, heq])
  have h2 := hf kv hkv
  omega

theorem PoolInv_insert_free (w : World) (now : Int) (p : ConnPool)
    (hinj : Function.Injective w.hash) (hInv : PoolInv w p) :
    PoolInv { w with nextId := w.nextId + 1 }
      { p with freeConnections :=
                 mapInsert p.freeConnections (w.hash w.nextId)
                   (mkCWC w.nextId now) } := by
  obtain ⟨hndF, hndU, hkF, hkU, hfF, hfU, hdisj⟩ := hInv
  have hh : ({ w with nextId := w.nextId + 1 } : World).hash = w.hash := rfl
  refine ⟨nodupKeys_mapInsert hndF, hndU, ?_, KeysAreHash_congr hh hkU,
    ?_, ?_, ?_⟩
  · exact KeysAreHash_congr hh (KeysAreHash_mapInsert hkF rfl)
  · exact FreshBound_mapInsert (FreshBound_mono (Nat.le_succ _) hfF)
      (Nat.lt_succ_self _)
  · exact FreshBound_mono (Nat.le_succ _) hfU
  · intro k h1 h2
    show False
    rcases mapHasKey_mapInsert_imp h1 with hknew | hkold
    · have := hash_fresh_not_in hinj hkU hfU
      rw [hknew] at h2
      rw [h2] at this
      cases this
    · exact hdisj k hkold h2

theorem PoolInv_fillLoop (now : Int) (w : World) (p : ConnPool) (n : Nat)
    (hinj : Function.Injective w.hash) (hInv : PoolInv w p) :
    PoolInv (fillLoop now w p n).1 (fillLoop now w p n).2.1 := by
  induction n generalizing w p with
  | zero => exact hInv
  | succ n ih =>
    by_cases hc : (w.createOk w.nextId && w.validateOk w.nextId) = true
    · rw [fillLoop_succ_pos now w p n hc]
      exact ih _ _ hinj (PoolInv_insert_free w now p hinj hInv)
    · rw [fillLoop_succ_neg now w p n hc]
      refine PoolInv_mono_world ?_ ?_ hInv
      · rfl
      · exact Nat.le_succ _

theorem PoolInv_scanFree (w : World) (now : Int) :
    ∀ (entries : List (Nat × ClientWithCreation)) (p p' : ConnPool)
      (r : ScanResult), p.freeConnections = entries →
      scanFree w now p entries = (p', r) → PoolInv w p → PoolInv w p'
  | [], p, p', r, _, heq, hInv => by
    simp only [scanFree, Prod.mk.injEq] at heq
    rw [← heq.1]
    exact hInv
  | (k, v) :: rest, p, p', r, hfree, heq, hInv => by
    obtain ⟨hndF, hndU, hkF, hkU, hfF, hfU, hdisj⟩ := hInv
    have hnd : NodupKeys ((k, v) :: rest) := by
      rw [← hfree]
      exact hndF
    obtain ⟨hnd', hknotin⟩ := NodupKeys_tail hnd
    have hdel : mapDelete p.freeConnections k = rest := by
      rw [hfree]
      exact mapDelete_cons hknotin
    have hInvDel : PoolInv w
        { p with freeConnections := mapDelete p.freeConnections k } := by
      refine ⟨nodupKeys_mapDelete hndF, hndU, KeysAreHash_mapDelete hkF,
        hkU, FreshBound_mapDelete hfF, hfU, ?_⟩
      intro k' h1 h2
      exact hdisj k' (mapHasKey_mapDelete_imp h1) h2
    simp only [scanFree] at heq
    split_ifs at heq with h1 h2 h3 h4
    · exact PoolInv_scanFree w now rest
        { p with freeConnections := mapDelete p.freeConnections k } p' r
        hdel heq hInvDel
    · simp only [Prod.mk.injEq] at heq
      rw [← heq.1]
      exact hInvDel
    · simp only [Prod.mk.injEq] at heq
      rw [← heq.1]
      have hmem : (k, v) ∈ p.freeConnections := by
        rw [hfree]
        exact List.mem_cons_self _ _
      have hkv : k = w.hash v.db := hkF (k, v) hmem
      have hvdb : v.db < w.nextId := hfF (k, v) hmem
      refine ⟨nodupKeys_mapDelete hndF, nodupKeys_mapInsert hndU,
        KeysAreHash_mapDelete hkF, KeysAreHash_mapInsert hkU hkv,
        FreshBound_mapDelete hfF, FreshBound_mapInsert hfU hvdb, ?_⟩
      intro k' hh1 hh2
      show False
      have hne : k' ≠ k := by
        intro hkk
        rw [hkk] at hh1
        have := @mapHasKey_mapDelete_self p.freeConnections k
        rw [hh1] at this
        cases this
      rcases mapHasKey_mapInsert_imp hh2 with hknew | hkold
      · exact hne hknew
      · exact hdisj k' (mapHasKey_mapDelete_imp hh1) hkold
    · exact PoolInv_scanFree w now rest
        { p with freeConnections := mapDelete p.freeConnections k } p' r
        hdel heq hInvDel
    · simp only [Prod.mk.injEq] at heq
      rw [← heq.1]
      exact hInvDel

theorem PoolInv_checkoutMiss (w : World) (now : Int) (p : ConnPool)
    (w' : World) (p' : ConnPool) (r : Option Nat)
    (hinj : Function.Injective w.hash) (hInv : PoolInv w p)
    (heq : checkoutMiss w now p = (w', p', r)) :
    PoolInv w' p' ∧ w'.hash = w.hash ∧ w.nextId ≤ w'.nextId ∧
    (∀ c, r = some c → c < w'.nextId) := by
  obtain ⟨hndF, hndU, hkF, hkU, hfF, hfU, hdisj⟩ := hInv
  rw [checkoutMiss_eq] at heq
  by_cases hc : w.createOk w.nextId = true
  · rw [if_pos hc, if_pos hc] at heq
    simp only [Prod.mk.injEq] at heq
    obtain ⟨hw, hp, hr⟩ := heq
    subst hw
    subst hp
    refine ⟨?_, rfl, Nat.le_succ _, ?_⟩
    · refine ⟨hndF, nodupKeys_mapInsert hndU,
        KeysAreHash_congr rfl hkF,
        KeysAreHash_congr rfl (KeysAreHash_mapInsert hkU rfl),
        FreshBound_mono (Nat.le_succ _) hfF,
        FreshBound_mapInsert (FreshBound_mono (Nat.le_succ _) hfU)
          (Nat.lt_succ_self _), ?_⟩
      intro k h1 h2
      show False
      rcases mapHasKey_mapInsert_imp h2 with hknew | hkold
      · have := hash_fresh_not_in hinj hkF hfF
        rw [hknew] at h1
        rw [h1] at this
        cases this
      · exact hdisj k h1 hkold
    · intro c hcc
      rw [← hr] at hcc
      injection hcc with hcc2
      rw [← hcc2]
      exact Nat.lt_succ_self _
  · rw [if_neg hc, if_neg hc] at heq
    simp only [Prod.mk.injEq] at heq
    obtain ⟨hw, hp, hr⟩ := heq
    subst hw
    subst hp
    refine ⟨?_, rfl, Nat.le_succ _, ?_⟩
    · refine PoolInv_mono_world ?_ ?_
        ⟨hndF, hndU, hkF, hkU, hfF, hfU, hdisj⟩
      · rfl
      · exact Nat.le_succ _
    · intro c hcc
      rw [← hr] at hcc
      simp at hcc

theorem Checkout_PoolInv (w : World) (now : Int) (p : ConnPool)
    (w' : World) (p' : ConnPool) (r : Option Nat)
    (hinj : Function.Injective w.hash) (hInv : PoolInv w p)
    (heq : Checkout w now p = (w', p', r)) :
    PoolInv w' p' ∧ w'.hash = w.hash ∧ w.nextId ≤ w'.nextId ∧
    (∀ c, r = some c → c < w'.nextId) := by
  unfold Checkout at heq
  split at heq
  rename_i w1 p1 ok1 hfl1
  have hphase1 : PoolInv w1 p1 ∧ w1.hash = w.hash ∧ w.nextId ≤ w1.nextId := by
    split at hfl1
    · have hA := PoolInv_fillLoop now w p p.poolSize.toNat hinj hInv
      have hB := fillLoop_hash now w p p.poolSize.toNat
      have hC := fillLoop_nextId_le now w p p.poolSize.toNat
      rw [hfl1] at hA hB hC
      exact ⟨hA, hB, hC⟩
    · simp only [Prod.mk.injEq] at hfl1
      obtain ⟨hw1, hp1, _⟩ := hfl1
      subst hw1
      subst hp1
      exact ⟨hInv, rfl, le_refl _⟩
  obtain ⟨hInv1, hh1, hn1⟩ := hphase1
  have hinj1 : Function.Injective w1.hash := by
    rw [hh1]
    exact hinj
  cases ok1 with
  | false =>
    simp only [Bool.not_false, if_true, Prod.mk.injEq] at heq
    obtain ⟨hw, hp, hr⟩ := heq
    subst hw
    subst hp
    refine ⟨hInv1, hh1, hn1, ?_⟩
    intro c hc
    rw [← hr] at hc
    simp at hc
  | true =>
    simp only [Bool.not_true, Bool.false_eq_true, if_false] at heq
    rcases hfl2 : fillLoop now w1 p1 (gapFillCount p1) with ⟨w2, p2, ok2⟩
    rw [hfl2] at heq
    have hA := PoolInv_fillLoop now w1 p1 (gapFillCount p1) hinj1 hInv1
    have hB := fillLoop_hash now w1 p1 (gapFillCount p1)
    have hC := fillLoop_nextId_le now w1 p1 (gapFillCount p1)
    rw [hfl2] at hA hB hC
    have hInv2 : PoolInv w2 p2 := hA
    have hh2 : w2.hash = w.hash := by
      have hB' : w2.hash = w1.hash := hB
      rw [hB', hh1]
    have hn2 : w.nextId ≤ w2.nextId := le_trans hn1 hC
    have hinj2 : Function.Injective w2.hash := by
      rw [hh2]
      exact hinj
    dsimp only at heq
    cases ok2 with
    | false =>
      simp only [Bool.not_false, if_true, Prod.mk.injEq] at heq
      obtain ⟨hw, hp, hr⟩ := heq
      subst hw
      subst hp
      refine ⟨hInv2, hh2, hn2, ?_⟩
      intro c hc
      rw [← hr] at hc
      simp at hc
    | true =>
      simp only [Bool.not_true, Bool.false_eq_true, if_false] at heq
      split at heq
      · rename_i hpos
        split at heq
        · rename_i p3 client hs
          simp only [Prod.mk.injEq] at heq
          obtain ⟨hw, hp, hr⟩ := heq
          subst hw
          subst hp
          have hInv3 : PoolInv w2 p3 :=
            PoolInv_scanFree w2 now p2.freeConnections p2 p3
              (ScanResult.ret client) rfl hs hInv2
          refine ⟨hInv3, hh2, hn2, ?_⟩
          intro c hc
          rw [← hr] at hc
          injection hc with hc2
          obtain ⟨k, v, hmem, hdb, _, _, _⟩ := scanFree_ret_char w2 now
            p2.freeConnections p2 p3 client rfl hInv2.1 hs
          have hfr : v.db < w2.nextId := hInv2.2.2.2.2.1 (k, v) hmem
          rw [← hc2, ← hdb]
          exact hfr
        · rename_i p3 hs
          simp only [Prod.mk.injEq] at heq
          obtain ⟨hw, hp, hr⟩ := heq
          subst hw
          subst hp
          have hInv3 : PoolInv w2 p3 :=
            PoolInv_scanFree w2 now p2.freeConnections p2 p3
              ScanResult.err rfl hs hInv2
          refine ⟨hInv3, hh2, hn2, ?_⟩
          intro c hc
          rw [← hr] at hc
          simp at hc
        · rename_i p3 hs
          have hInv3 : PoolInv w2 p3 :=
            PoolInv_scanFree w2 now p2.freeConnections p2 p3
              ScanResult.done rfl hs hInv2
          obtain ⟨hI, hH, hN, hR⟩ :=
            PoolInv_checkoutMiss w2 now p3 w' p' r hinj2 hInv3 heq
          refine ⟨hI, by rw [hH, hh2], le_trans hn2 hN, hR⟩
      · rename_i hneg
        obtain ⟨hI, hH, hN, hR⟩ :=
          PoolInv_checkoutMiss w2 now p2 w' p' r hinj2 hInv2 heq
        refine ⟨hI, by rw [hH, hh2], le_trans hn2 hN, hR⟩

theorem CheckIn_PoolInv (w : World) (now : Int) (p : ConnPool) (c : Nat)
    (hc : c < w.nextId) (hInv : PoolInv w p) :
    PoolInv w (CheckIn w now p c) := by
  obtain ⟨hndF, hndU, hkF, hkU, hfF, hfU, hdisj⟩ := hInv
  simp only [CheckIn]
  split
  · rename_i hcond
    refine ⟨nodupKeys_mapInsert hndF, nodupKeys_mapDelete hndU,
      KeysAreHash_mapInsert hkF rfl, KeysAreHash_mapDelete hkU,
      FreshBound_mapInsert hfF hc, FreshBound_mapDelete hfU, ?_⟩
    intro k h1 h2
    show False
    rcases mapHasKey_mapInsert_imp h1 with hknew | hkold
    · rw [hknew] at h2
      have := @mapHasKey_mapDelete_self p.connectionsInUse (w.hash c)
      rw [h2] at this
      cases this
    · exact hdisj k hkold (mapHasKey_mapDelete_imp h2)
  · refine ⟨hndF, nodupKeys_mapDelete hndU, hkF, KeysAreHash_mapDelete hkU,
      hfF, FreshBound_mapDelete hfU, ?_⟩
    intro k h1 h2
    exact hdisj k h1 (mapHasKey_mapDelete_imp h2)

theorem PoolInv_create (w : World) (poolSize : Int) :
    PoolInv w (CreateConnPool poolSize) := by
  refine ⟨List.nodup_nil, List.nodup_nil, ?_, ?_, ?_, ?_, ?_⟩
  · intro kv hkv
    cases hkv
  · intro kv hkv
    cases hkv
  · intro kv hkv
    cases hkv
  · intro kv hkv
    cases hkv
  · intro k h1 h2
    cases h1

theorem mkCWC_db (db : Nat) (t : Int) : (mkCWC db t).db = db := rfl

theorem mkCWC_creationTime (db : Nat) (t : Int) :
    (mkCWC db t).creationTime = t := rfl

theorem mapHasKey_append {m1 m2 : ConnMap} {k : Nat} :
    mapHasKey (m1 ++ m2) k = (mapHasKey m1 k || mapHasKey m2 k) := by
  simp [mapHasKey, List.any_append]

theorem entriesRange_length (t : Int) (n : Nat) :
    ∀ a : Nat, (entriesRange t a n).length = n := by
  induction n with
  | zero => intro a; rfl
  | succ n ih =>
    intro a
    show (entriesRange t (a + 1) n).length + 1 = n + 1
    rw [ih (a + 1)]

theorem mapHasKey_entriesRange_false (t : Int) (n : Nat) :
    ∀ a k : Nat, k < a ∨ a + n ≤ k →
      mapHasKey (entriesRange t a n) k = false := by
  induction n with
  | zero => intro a k _; rfl
  | succ n ih =>
    intro a k hk
    show mapHasKey ((a, mkCWC a t) :: entriesRange t (a + 1) n) k = false
    rw [mapHasKey, List.any_cons]
    have h1 : ((a, mkCWC a t).1 == k) = false := by
      simp only [beq_eq_false_iff_ne]
      show a ≠ k
      omega
    rw [h1, Bool.false_or]
    exact ih (a + 1) k (by omega)

theorem entriesRange_snoc (t : Int) (n : Nat) :
    ∀ a : Nat, entriesRange t a (n + 1) =
      entriesRange t a n ++ [(a + n, mkCWC (a + n) t)] := by
  induction n with
  | zero =>
    intro a
    show (a, mkCWC a t) :: entriesRange t (a + 1) 0 =
      [] ++ [(a + 0, mkCWC (a + 0) t)]
    rw [Nat.add_zero]
    rfl
  | succ n ih =>
    intro a
    show (a, mkCWC a t) :: entriesRange t (a + 1) (n + 1) =
      ((a, mkCWC a t) :: entriesRange t (a + 1) n) ++
        [(a + (n + 1), mkCWC (a + (n + 1)) t)]
    rw [ih (a + 1), List.cons_append]
    have h2 : a + 1 + n = a + (n + 1) := by omega
    rw [h2]

theorem mapDelete_entriesRange_head (t : Int) (a n : Nat) :
    mapDelete (entriesRange t a (n + 1)) a = entriesRange t (a + 1) n := by
  show mapDelete ((a, mkCWC a t) :: entriesRange t (a + 1) n) a = _
  exact mapDelete_cons (mapHasKey_entriesRange_false t n (a + 1) a (by omega))

theorem fillLoop_gw (now : Int) (n : Nat) :
    ∀ (a : Nat) (iu fr : ConnMap) (ps ex : Int),
      (∀ k, mapHasKey fr k = true → k < a) →
      fillLoop now (gw a) ⟨iu, fr, ps, ex⟩ n =
        (gw (a + n), ⟨iu, fr ++ entriesRange now a n, ps, ex⟩, true) := by
  induction n with
  | zero =>
    intro a iu fr ps ex _
    show (gw a, (⟨iu, fr, ps, ex⟩ : ConnPool), true) = _
    rw [Nat.add_zero, show entriesRange now a 0 = [] from rfl,
      List.append_nil]
  | succ n ih =>
    intro a iu fr ps ex hkeys
    have hc : ((gw a).createOk (gw a).nextId &&
        (gw a).validateOk (gw a).nextId) = true := rfl
    rw [fillLoop_succ_pos now (gw a) ⟨iu, fr, ps, ex⟩ n hc]
    have hnotin : mapHasKey fr a = false := by
      cases hh : mapHasKey fr a
      · rfl
      · exact absurd (hkeys a hh) (by omega)
    have hins : mapInsert (⟨iu, fr, ps, ex⟩ : ConnPool).freeConnections
        ((gw a).hash (gw a).nextId) (mkCWC (gw a).nextId now) =
        fr ++ [(a, mkCWC a now)] := mapInsert_append hnotin
    rw [hins]
    have hkeys' : ∀ k, mapHasKey (fr ++ [(a, mkCWC a now)]) k = true →
        k < a + 1 := by
      intro k hk
      rw [mapHasKey_append] at hk
      rcases Bool.or_eq_true_iff.mp hk with hk1 | hk2
      · exact lt_trans (hkeys k hk1) (Nat.lt_succ_self _)
      · rw [mapHasKey, List.any_cons] at hk2
        simp only [List.any_nil, Bool.or_false, beq_iff_eq] at hk2
        omega
    have hfin : fillLoop now { gw a with nextId := (gw a).nextId + 1 }
        { (⟨iu, fr, ps, ex⟩ : ConnPool) with freeConnections :=
            fr ++ [(a, mkCWC a now)] } n =
        (gw (a + 1 + n),
         ⟨iu, (fr ++ [(a, mkCWC a now)]) ++ entriesRange now (a + 1) n,
          ps, ex⟩, true) :=
      ih (a + 1) iu (fr ++ [(a, mkCWC a now)]) ps ex hkeys'
    rw [hfin]
    have h2 : a + 1 + n = a + (n + 1) := by omega
    rw [h2, List.append_assoc, List.singleton_append]
    rfl

theorem scanFree_head_valid (w : World) (now : Int) (p : ConnPool)
    (k : Nat) (v : ClientWithCreation)
    (rest : List (Nat × ClientWithCreation))
    (hexp : ¬(now - v.creationTime > p.expiry))
    (hval : validate w v.db = true) :
    scanFree w now p ((k, v) :: rest) =
      ({ p with freeConnections := mapDelete p.freeConnections k
                connectionsInUse :=
                  mapInsert p.connectionsInUse k (mkCWC v.db now) },
       ScanResult.ret v.db) := by
  simp only [scanFree]
  rw [if_neg hexp, if_pos hval]
  rfl

theorem Checkout_ret_general (w : World) (now : Int) (p : ConnPool)
    (w1 : World) (p1 : ConnPool) (w2 : World) (p2 p3 : ConnPool) (c : Nat)
    (h1 : (if p.freeConnections.length == 0 &&
             p.connectionsInUse.length == 0 then
            fillLoop now w p p.poolSize.toNat
          else (w, p, true)) = (w1, p1, true))
    (h2 : fillLoop now w1 p1 (gapFillCount p1) = (w2, p2, true))
    (hpos : 0 < p2.freeConnections.length)
    (hscan : scanFree w2 now p2 p2.freeConnections =
      (p3, ScanResult.ret c)) :
    Checkout w now p = (w2, p3, some c) := by
  rcases hck : Checkout w now p with ⟨wx, px, rx⟩
  unfold Checkout at hck
  split at hck
  rename_i w1' p1' ok1' hfl1
  rw [h1] at hfl1
  simp only [Prod.mk.injEq] at hfl1
  obtain ⟨hw1, hp1, hok1⟩ := hfl1
  subst hw1
  subst hp1
  subst hok1
  simp only [Bool.not_true, Bool.false_eq_true, if_false] at hck
  rw [h2] at hck
  dsimp only at hck
  simp only [Bool.not_true, Bool.false_eq_true, if_false] at hck
  rw [if_pos hpos] at hck
  rw [hscan] at hck
  simp only [Prod.mk.injEq] at hck
  obtain ⟨hw, hp, hr⟩ := hck
  rw [← hw, ← hp, ← hr]

theorem gapFillCount_lit (iu fr : ConnMap) (ps ex : Int) :
    gapFillCount ⟨iu, fr, ps, ex⟩ =
      (ps + 1 - ((fr.length : Int) + (iu.length : Int))).toNat := rfl

theorem Checkout_gw_first (t : Int) (S : Nat) :
    Checkout (gw 0) t (CreateConnPool (S : Int)) =
      (gw (S + 1), stateAfterK t S 1, some 0) := by
  have hfill1 : fillLoop t (gw 0) (CreateConnPool (S : Int))
      ((CreateConnPool (S : Int)).poolSize.toNat) =
      (gw S, ⟨[], entriesRange t 0 S, (S : Int), 300000000000⟩, true) := by
    have h0 : (CreateConnPool (S : Int)).poolSize.toNat = S :=
      Int.toNat_ofNat S
    rw [h0]
    have hgen := fillLoop_gw t S 0 [] [] (S : Int) 300000000000
      (by intro k hk; cases hk)
    rw [Nat.zero_add, List.nil_append] at hgen
    exact hgen
  have hgap : gapFillCount
      (⟨[], entriesRange t 0 S, (S : Int), 300000000000⟩ : ConnPool) = 1 := by
    rw [gapFillCount_lit, entriesRange_length, List.length_nil]
    omega
  have hfill2 : fillLoop t (gw S)
      (⟨[], entriesRange t 0 S, (S : Int), 300000000000⟩ : ConnPool)
      (gapFillCount
        (⟨[], entriesRange t 0 S, (S : Int), 300000000000⟩ : ConnPool)) =
      (gw (S + 1),
       ⟨[], entriesRange t 0 (S + 1), (S : Int), 300000000000⟩, true) := by
    rw [hgap]
    have hkeys : ∀ k, mapHasKey (entriesRange t 0 S) k = true → k < S := by
      intro k hk
      by_cases hlt : k < S
      · exact hlt
      · have hfalse := mapHasKey_entriesRange_false t S 0 k (Or.inr (by omega))
        rw [hk] at hfalse
        cases hfalse
    have hgen := fillLoop_gw t 1 S [] (entriesRange t 0 S) (S : Int)
      300000000000 hkeys
    rw [hgen]
    have hlist : entriesRange t 0 S ++ entriesRange t S 1 =
        entriesRange t 0 (S + 1) := by
      rw [entriesRange_snoc t S 0, Nat.zero_add]
      rfl
    rw [hlist]
  have hpos : 0 < ((⟨[], entriesRange t 0 (S + 1), (S : Int),
      300000000000⟩ : ConnPool)).freeConnections.length := by
    show 0 < (entriesRange t 0 (S + 1)).length
    rw [entriesRange_length]
    omega
  have hscan : scanFree (gw (S + 1)) t
      (⟨[], entriesRange t 0 (S + 1), (S : Int), 300000000000⟩ : ConnPool)
      (entriesRange t 0 (S + 1)) =
      (stateAfterK t S 1, ScanResult.ret 0) := by
    have hcons : entriesRange t 0 (S + 1) =
        (0, mkCWC 0 t) :: entriesRange t 1 S := rfl
    nth_rewrite 2 [hcons]
    rw [scanFree_head_valid (gw (S + 1)) t
      (⟨[], entriesRange t 0 (S + 1), (S : Int), 300000000000⟩ : ConnPool)
      0 (mkCWC 0 t) (entriesRange t 1 S)
      (by show ¬(t - t > (300000000000 : Int)); omega) rfl]
    have hdel : mapDelete ((⟨[], entriesRange t 0 (S + 1), (S : Int),
        300000000000⟩ : ConnPool)).freeConnections 0 =
        entriesRange t 1 S := by
      show mapDelete (entriesRange t 0 (S + 1)) 0 = entriesRange t 1 S
      exact mapDelete_entriesRange_head t 0 S
    have hins : mapInsert ((⟨[], entriesRange t 0 (S + 1), (S : Int),
        300000000000⟩ : ConnPool)).connectionsInUse 0
        (mkCWC (mkCWC 0 t).db t) = entriesRange t 0 1 := by
      show mapInsert [] 0 (mkCWC 0 t) = entriesRange t 0 1
      rw [mapInsert_append (show mapHasKey [] 0 = false from rfl)]
      rfl
    rw [hdel, hins]
    show ((⟨entriesRange t 0 1, entriesRange t 1 S, (S : Int),
      300000000000⟩ : ConnPool), ScanResult.ret 0) =
      (stateAfterK t S 1, ScanResult.ret 0)
    rw [stateAfterK]
    have hSk : S + 1 - 1 = S := by omega
    rw [hSk]
  exact Checkout_ret_general (gw 0) t (CreateConnPool (S : Int)) (gw S)
    (⟨[], entriesRange t 0 S, (S : Int), 300000000000⟩ : ConnPool)
    (gw (S + 1))
    (⟨[], entriesRange t 0 (S + 1), (S : Int), 300000000000⟩ : ConnPool)
    (stateAfterK t S 1) 0
    (by rw [if_pos (show ((CreateConnPool (S : Int)).freeConnections.length
        == 0 && (CreateConnPool (S : Int)).connectionsInUse.length == 0) =
        true from rfl)]
        exact hfill1)
    hfill2 hpos hscan

theorem Checkout_gw_step (t : Int) (S k : Nat) (hk1 : 1 ≤ k) (hkS : k ≤ S) :
    Checkout (gw (S + 1)) t (stateAfterK t S k) =
      (gw (S + 1), stateAfterK t S (k + 1), some k) := by
  have hlenF : (stateAfterK t S k).freeConnections.length = S + 1 - k := by
    show (entriesRange t k (S + 1 - k)).length = S + 1 - k
    exact entriesRange_length t (S + 1 - k) k
  have hne : ¬(((stateAfterK t S k).freeConnections.length == 0 &&
      (stateAfterK t S k).connectionsInUse.length == 0) = true) := by
    have hzero : ((stateAfterK t S k).freeConnections.length == 0) = false := by
      rw [hlenF]
      simp only [beq_eq_false_iff_ne]
      omega
    rw [hzero, Bool.false_and]
    simp
  have hgap0 : gapFillCount (stateAfterK t S k) = 0 := by
    rw [stateAfterK, gapFillCount_lit, entriesRange_length, entriesRange_length]
    omega
  have h2 : fillLoop t (gw (S + 1)) (stateAfterK t S k)
      (gapFillCount (stateAfterK t S k)) =
      (gw (S + 1), stateAfterK t S k, true) := by
    rw [hgap0]
    rfl
  have hpos : 0 < (stateAfterK t S k).freeConnections.length := by
    rw [hlenF]
    omega
  have hconsF : (stateAfterK t S k).freeConnections =
      (k, mkCWC k t) :: entriesRange t (k + 1) (S - k) := by
    show entriesRange t k (S + 1 - k) = _
    have hsk : S + 1 - k = (S - k) + 1 := by omega
    rw [hsk]
    rfl
  have hscan : scanFree (gw (S + 1)) t (stateAfterK t S k)
      ((stateAfterK t S k).freeConnections) =
      (stateAfterK t S (k + 1), ScanResult.ret k) := by
    rw [hconsF]
    rw [scanFree_head_valid (gw (S + 1)) t (stateAfterK t S k) k (mkCWC k t)
      (entriesRange t (k + 1) (S - k))
      (by show ¬(t - t > (300000000000 : Int)); omega) rfl]
    have hdel : mapDelete (stateAfterK t S k).freeConnections k =
        entriesRange t (k + 1) (S - k) := by
      rw [hconsF]
      exact mapDelete_cons
        (mapHasKey_entriesRange_false t (S - k) (k + 1) k (by omega))
    have hins : mapInsert (stateAfterK t S k).connectionsInUse k
        (mkCWC (mkCWC k t).db t) = entriesRange t 0 (k + 1) := by
      show mapInsert (entriesRange t 0 k) k (mkCWC k t) =
        entriesRange t 0 (k + 1)
      rw [mapInsert_append (mapHasKey_entriesRange_false t k 0 k (by omega))]
      rw [entriesRange_snoc t k 0, Nat.zero_add]
    rw [hdel, hins]
    show ((⟨entriesRange t 0 (k + 1), entriesRange t (k + 1) (S - k),
      (S : Int), 300000000000⟩ : ConnPool), ScanResult.ret k) =
      (stateAfterK t S (k + 1), ScanResult.ret k)
    rw [stateAfterK]
    have hsk2 : S + 1 - (k + 1) = S - k := by omega
    rw [hsk2]
  exact Checkout_ret_general (gw (S + 1)) t (stateAfterK t S k) (gw (S + 1))
    (stateAfterK t S k) (gw (S + 1)) (stateAfterK t S k)
    (stateAfterK t S (k + 1)) k (by rw [if_neg hne]) h2 hpos hscan

theorem CheckIn_gw_first (t : Int) (S N : Nat) (hN1 : 1 ≤ N) (hNS : N ≤ S) :
    CheckIn (gw (S + 1)) t (stateAfterK t S N) 0 = stateDuringCI t S N 1 := by
  simp only [CheckIn]
  have hdel : mapDelete (stateAfterK t S N).connectionsInUse
      ((gw (S + 1)).hash 0) = entriesRange t 1 (N - 1) := by
    show mapDelete (entriesRange t 0 N) 0 = entriesRange t 1 (N - 1)
    have hN : N = (N - 1) + 1 := by omega
    nth_rewrite 1 [hN]
    exact mapDelete_entriesRange_head t 0 (N - 1)
  rw [hdel]
  have hne : ¬(((stateAfterK t S N).freeConnections.length : Int) +
      ((entriesRange t 1 (N - 1)).length : Int) <
      (stateAfterK t S N).poolSize) := by
    show ¬(((entriesRange t N (S + 1 - N)).length : Int) +
      ((entriesRange t 1 (N - 1)).length : Int) < (S : Int))
    rw [entriesRange_length, entriesRange_length]
    omega
  rw [if_neg hne]
  show (⟨entriesRange t 1 (N - 1), entriesRange t N (S + 1 - N), (S : Int),
    300000000000⟩ : ConnPool) = stateDuringCI t S N 1
  rw [stateDuringCI]
  rw [show entriesRange t 1 (1 - 1) = [] from rfl, List.append_nil]

theorem CheckIn_gw_step (t : Int) (S N j : Nat) (hj1 : 1 ≤ j) (hjN : j < N)
    (hNS : N ≤ S) :
    CheckIn (gw (S + 1)) t (stateDuringCI t S N j) j =
      stateDuringCI t S N (j + 1) := by
  simp only [CheckIn]
  have hdel : mapDelete (stateDuringCI t S N j).connectionsInUse
      ((gw (S + 1)).hash j) = entriesRange t (j + 1) (N - j - 1) := by
    show mapDelete (entriesRange t j (N - j)) j =
      entriesRange t (j + 1) (N - j - 1)
    have hNj : N - j = (N - j - 1) + 1 := by omega
    nth_rewrite 1 [hNj]
    exact mapDelete_entriesRange_head t j (N - j - 1)
  rw [hdel]
  have hcond : ((stateDuringCI t S N j).freeConnections.length : Int) +
      ((entriesRange t (j + 1) (N - j - 1)).length : Int) <
      (stateDuringCI t S N j).poolSize := by
    show ((entriesRange t N (S + 1 - N) ++
      entriesRange t 1 (j - 1)).length : Int) +
      ((entriesRange t (j + 1) (N - j - 1)).length : Int) < (S : Int)
    rw [List.length_append, entriesRange_length, entriesRange_length,
      entriesRange_length]
    omega
  rw [if_pos hcond]
  have hnotin : mapHasKey (stateDuringCI t S N j).freeConnections
      ((gw (S + 1)).hash j) = false := by
    show mapHasKey (entriesRange t N (S + 1 - N) ++
      entriesRange t 1 (j - 1)) j = false
    rw [mapHasKey_append]
    rw [mapHasKey_entriesRange_false t (S + 1 - N) N j (Or.inl (by omega))]
    rw [mapHasKey_entriesRange_false t (j - 1) 1 j (Or.inr (by omega))]
    rfl
  have hins : mapInsert (stateDuringCI t S N j).freeConnections
      ((gw (S + 1)).hash j)
      (⟨j, t⟩ : ClientWithCreation) =
      entriesRange t N (S + 1 - N) ++ entriesRange t 1 j := by
    rw [mapInsert_append hnotin]
    show (entriesRange t N (S + 1 - N) ++ entriesRange t 1 (j - 1)) ++
      [(j, mkCWC j t)] = _
    rw [List.append_assoc]
    have hsnoc : entriesRange t 1 (j - 1) ++ [(j, mkCWC j t)] =
        entriesRange t 1 j := by
      have hpair : ((j : Nat), mkCWC j t) =
          (1 + (j - 1), mkCWC (1 + (j - 1)) t) := by
        have h1j : 1 + (j - 1) = j := by omega
        rw [h1j]
      rw [hpair, ← entriesRange_snoc t (j - 1) 1]
      have hjj : (j - 1) + 1 = j := by omega
      rw [hjj]
    rw [hsnoc]
  rw [hins]
  show (⟨entriesRange t (j + 1) (N - j - 1),
    entriesRange t N (S + 1 - N) ++ entriesRange t 1 j, (S : Int),
    300000000000⟩ : ConnPool) = stateDuringCI t S N (j + 1)
  rw [stateDuringCI]
  have e1 : N - (j + 1) = N - j - 1 := by omega
  have e2 : j + 1 - 1 = j := by omega
  rw [e1, e2]

theorem runOps_append (now : Int) :
    ∀ (l1 l2 : List Op) (w : World) (p : ConnPool),
      runOps now w p (l1 ++ l2) =
      runOps now (runOps now w p l1).1 (runOps now w p l1).2 l2
  | [], _, _, _ => rfl
  | op :: l1, l2, w, p => by
    show runOps now (runOp now w p op).1 (runOp now w p op).2 (l1 ++ l2) = _
    rw [runOps_append now l1 l2 (runOp now w p op).1 (runOp now w p op).2]
    rfl

theorem runOps_checkouts (t : Int) (S : Nat) :
    ∀ (n k : Nat), 1 ≤ k → k + n ≤ S + 1 →
      runOps t (gw (S + 1)) (stateAfterK t S k)
        (List.replicate n Op.checkout) =
      (gw (S + 1), stateAfterK t S (k + n)) := by
  intro n
  induction n with
  | zero =>
    intro k hk1 hkn
    rw [Nat.add_zero]
    rfl
  | succ n ih =>
    intro k hk1 hkn
    show runOps t (runOp t (gw (S + 1)) (stateAfterK t S k) Op.checkout).1
      (runOp t (gw (S + 1)) (stateAfterK t S k) Op.checkout).2
      (List.replicate n Op.checkout) = _
    rw [show runOp t (gw (S + 1)) (stateAfterK t S k) Op.checkout =
        (gw (S + 1), stateAfterK t S (k + 1)) from by
      show ((Checkout (gw (S + 1)) t (stateAfterK t S k)).1,
        (Checkout (gw (S + 1)) t (stateAfterK t S k)).2.1) = _
      rw [Checkout_gw_step t S k hk1 (by omega)]]
    show runOps t (gw (S + 1)) (stateAfterK t S (k + 1))
      (List.replicate n Op.checkout) = _
    rw [ih (k + 1) (by omega) (by omega)]
    have e1 : k + 1 + n = k + (n + 1) := by omega
    rw [e1]

theorem runOps_checkins (t : Int) (S N : Nat) (hNS : N ≤ S) :
    ∀ (m j : Nat), 1 ≤ j → j + m = N →
      runOps t (gw (S + 1)) (stateDuringCI t S N j)
        ((List.range' j m).map Op.checkin) =
      (gw (S + 1), stateDuringCI t S N N) := by
  intro m
  induction m with
  | zero =>
    intro j hj1 hjm
    rw [show j = N from by omega]
    rfl
  | succ m ih =>
    intro j hj1 hjm
    show runOps t (gw (S + 1))
      (CheckIn (gw (S + 1)) t (stateDuringCI t S N j) j)
      ((List.range' (j + 1) m).map Op.checkin) = _
    rw [CheckIn_gw_step t S N j hj1 (by omega) hNS]
    exact ih (j + 1) (by omega) (by omega)

theorem returnedClients_gw (t : Int) (S : Nat) :
    ∀ (n k : Nat), 1 ≤ k → k + n ≤ S + 1 →
      returnedClients t (gw (S + 1)) (stateAfterK t S k) n =
        (List.range' k n).map some := by
  intro n
  induction n with
  | zero => intro k _ _; rfl
  | succ n ih =>
    intro k hk1 hkn
    show (Checkout (gw (S + 1)) t (stateAfterK t S k)).2.2 ::
      returnedClients t (Checkout (gw (S + 1)) t (stateAfterK t S k)).1
        (Checkout (gw (S + 1)) t (stateAfterK t S k)).2.1 n =
      (List.range' k (n + 1)).map some
    rw [Checkout_gw_step t S k hk1 (by omega)]
    dsimp only
    rw [ih (k + 1) (by omega) (by omega)]
    rfl

theorem returnedClients_full (t : Int) (S M : Nat) (hMS : M + 1 ≤ S) :
    returnedClients t goodWorld (CreateConnPool (S : Int)) (M + 1) =
      (List.range (M + 1)).map some := by
  show (Checkout goodWorld t (CreateConnPool (S : Int))).2.2 ::
    returnedClients t (Checkout goodWorld t (CreateConnPool (S : Int))).1
      (Checkout goodWorld t (CreateConnPool (S : Int))).2.1 M =
    (List.range (M + 1)).map some
  rw [show Checkout goodWorld t (CreateConnPool (S : Int)) =
    (gw (S + 1), stateAfterK t S 1, some 0) from Checkout_gw_first t S]
  dsimp only
  rw [returnedClients_gw t S M 1 (le_refl 1) (by omega)]
  rw [List.range_eq_range']
  rfl

theorem runOps_full (t : Int) (S M : Nat) (hMS : M + 1 ≤ S) :
    runOps t goodWorld (CreateConnPool (S : Int))
      (List.replicate (M + 1) Op.checkout ++
       (List.range (M + 1)).map Op.checkin) =
    (gw (S + 1), stateDuringCI t S (M + 1) (M + 1)) := by
  rw [runOps_append]
  have hco : runOps t goodWorld (CreateConnPool (S : Int))
      (List.replicate (M + 1) Op.checkout) =
      (gw (S + 1), stateAfterK t S (M + 1)) := by
    show runOps t
      (runOp t goodWorld (CreateConnPool (S : Int)) Op.checkout).1
      (runOp t goodWorld (CreateConnPool (S : Int)) Op.checkout).2
      (List.replicate M Op.checkout) = _
    rw [show runOp t goodWorld (CreateConnPool (S : Int)) Op.checkout =
        (gw (S + 1), stateAfterK t S 1) from by
      show ((Checkout goodWorld t (CreateConnPool (S : Int))).1,
        (Checkout goodWorld t (CreateConnPool (S : Int))).2.1) = _
      rw [show Checkout goodWorld t (CreateConnPool (S : Int)) =
        (gw (S + 1), stateAfterK t S 1, some 0) from Checkout_gw_first t S]]
    show runOps t (gw (S + 1)) (stateAfterK t S 1)
      (List.replicate M Op.checkout) = _
    rw [runOps_checkouts t S M 1 (le_refl 1) (by omega)]
    rw [show 1 + M = M + 1 from by omega]
  rw [hco]
  dsimp only
  rw [List.range_eq_range']
  show runOps t (gw (S + 1))
    (CheckIn (gw (S + 1)) t (stateAfterK t S (M + 1)) 0)
    ((List.range' 1 M).map Op.checkin) = _
  rw [CheckIn_gw_first t S (M + 1) (by omega) hMS]
  exact runOps_checkins t S (M + 1) hMS M 1 (le_refl 1) (by omega)

theorem stateDuringCI_final (t : Int) (S N : Nat) (hN1 : 1 ≤ N)
    (hNS : N ≤ S) :
    (stateDuringCI t S N N).freeConnections.length = S ∧
    (stateDuringCI t S N N).connectionsInUse = [] := by
  constructor
  · show (entriesRange t N (S + 1 - N) ++ entriesRange t 1 (N - 1)).length = S
    rw [List.length_append, entriesRange_length, entriesRange_length]
    omega
  · show entriesRange t N (N - N) = []
    rw [Nat.sub_self]
    rfl

theorem Checkout_miss_empty (w : World) (now : Int) (p : ConnPool)
    (w1 : World) (p1 : ConnPool) (w2 : World) (p2 : ConnPool)
    (h1 : (if p.freeConnections.length == 0 &&
             p.connectionsInUse.length == 0 then
            fillLoop now w p p.poolSize.toNat
          else (w, p, true)) = (w1, p1, true))
    (h2 : fillLoop now w1 p1 (gapFillCount p1) = (w2, p2, true))
    (hempty : p2.freeConnections.length = 0) :
    Checkout w now p = checkoutMiss w2 now p2 := by
  rcases hck : Checkout w now p with ⟨wx, px, rx⟩
  unfold Checkout at hck
  split at hck
  rename_i w1' p1' ok1' hfl1
  rw [h1] at hfl1
  simp only [Prod.mk.injEq] at hfl1
  obtain ⟨hw1, hp1, hok1⟩ := hfl1
  subst hw1
  subst hp1
  subst hok1
  simp only [Bool.not_true, Bool.false_eq_true, if_false] at hck
  rw [h2] at hck
  dsimp only at hck
  simp only [Bool.not_true, Bool.false_eq_true, if_false] at hck
  rw [if_neg (by omega : ¬(0 < p2.freeConnections.length))] at hck
  rw [← hck]

theorem Checkout_registered (w : World) (now : Int) (p : ConnPool)
    (w' : World) (p' : ConnPool) (r : Option Nat)
    (hnd : NodupKeys p.freeConnections)
    (hkh : KeysAreHash w p.freeConnections)
    (heq : Checkout w now p = (w', p', r)) :
    w'.hash = w.hash ∧
    (∀ c, r = some c → mapHasKey p'.connectionsInUse (w.hash c) = true) := by
  unfold Checkout at heq
  split at heq
  rename_i w1 p1 ok1 hfl1
  have hphase1 : w1.hash = w.hash ∧ NodupKeys p1.freeConnections ∧
      KeysAreHash w p1.freeConnections := by
    split at hfl1
    · have h4 := fillLoop_hash now w p p.poolSize.toNat
      have h6 := fillLoop_nodup now w p p.poolSize.toNat hnd
      have h7 := fillLoop_keysHash now w p p.poolSize.toNat hkh
      rw [hfl1] at h4 h6 h7
      exact ⟨h4, h6, h7⟩
    · simp only [Prod.mk.injEq] at hfl1
      obtain ⟨hw1, hp1, _⟩ := hfl1
      subst hw1
      subst hp1
      exact ⟨rfl, hnd, hkh⟩
  obtain ⟨hh1, hnd1, hkh1⟩ := hphase1
  cases ok1 with
  | false =>
    simp only [Bool.not_false, if_true, Prod.mk.injEq] at heq
    obtain ⟨hw, hp, hr⟩ := heq
    subst hw
    subst hp
    refine ⟨hh1, ?_⟩
    intro c hc
    rw [← hr] at hc
    simp at hc
  | true =>
    simp only [Bool.not_true, Bool.false_eq_true, if_false] at heq
    rcases hfl2 : fillLoop now w1 p1 (gapFillCount p1) with ⟨w2, p2, ok2⟩
    rw [hfl2] at heq
    have h4 := fillLoop_hash now w1 p1 (gapFillCount p1)
    have h6 := fillLoop_nodup now w1 p1 (gapFillCount p1) hnd1
    have h7 := fillLoop_keysHash now w1 p1 (gapFillCount p1)
      (KeysAreHash_congr hh1 hkh1)
    rw [hfl2] at h4 h6 h7
    have hh2 : w2.hash = w.hash := by
      have h4' : w2.hash = w1.hash := h4
      rw [h4', hh1]
    have hnd2 : NodupKeys p2.freeConnections := h6
    have hkh2 : KeysAreHash w p2.freeConnections :=
      KeysAreHash_congr hh1.symm (h7 : KeysAreHash w1 p2.freeConnections)
    dsimp only at heq
    cases ok2 with
    | false =>
      simp only [Bool.not_false, if_true, Prod.mk.injEq] at heq
      obtain ⟨hw, hp, hr⟩ := heq
      subst hw
      subst hp
      refine ⟨hh2, ?_⟩
      intro c hc
      rw [← hr] at hc
      simp at hc
    | true =>
      simp only [Bool.not_true, Bool.false_eq_true, if_false] at heq
      split at heq
      · rename_i hpos
        split at heq
        · rename_i p3 client hs
          simp only [Prod.mk.injEq] at heq
          obtain ⟨hw, hp, hr⟩ := heq
          subst hw
          subst hp
          refine ⟨hh2, ?_⟩
          intro c hc
          rw [← hr] at hc
          injection hc with hc2
          subst hc2
          obtain ⟨k, v, hmem, hdb, _, _, hin⟩ := scanFree_ret_char w2 now
            p2.freeConnections p2 p3 client rfl hnd2 hs
          have hk : k = w.hash client := by
            rw [← hdb]
            exact hkh2 (k, v) hmem
          rw [hin, ← hk]
          exact mapHasKey_mapInsert_self
        · rename_i p3 hs
          simp only [Prod.mk.injEq] at heq
          obtain ⟨hw, hp, hr⟩ := heq
          subst hw
          subst hp
          refine ⟨hh2, ?_⟩
          intro c hc
          rw [← hr] at hc
          simp at hc
        · rename_i p3 hs
          rw [checkoutMiss_eq] at heq
          by_cases hc : w2.createOk w2.nextId = true
          · rw [if_pos hc, if_pos hc] at heq
            simp only [Prod.mk.injEq] at heq
            obtain ⟨hw, hp, hr⟩ := heq
            subst hw
            subst hp
            refine ⟨hh2, ?_⟩
            intro c hcc
            rw [← hr] at hcc
            injection hcc with hcc2
            subst hcc2
            show mapHasKey (mapInsert p3.connectionsInUse
              (w2.hash w2.nextId) (mkCWC w2.nextId now))
              (w.hash w2.nextId) = true
            rw [← hh2]
            exact mapHasKey_mapInsert_self
          · rw [if_neg hc, if_neg hc] at heq
            simp only [Prod.mk.injEq] at heq
            obtain ⟨hw, hp, hr⟩ := heq
            subst hw
            subst hp
            refine ⟨hh2, ?_⟩
            intro c hcc
            rw [← hr] at hcc
            simp at hcc
      · rename_i hneg
        rw [checkoutMiss_eq] at heq
        by_cases hc : w2.createOk w2.nextId = true
        · rw [if_pos hc, if_pos hc] at heq
          simp only [Prod.mk.injEq] at heq
          obtain ⟨hw, hp, hr⟩ := heq
          subst hw
          subst hp
          refine ⟨hh2, ?_⟩
          intro c hcc
          rw [← hr] at hcc
          injection hcc with hcc2
          subst hcc2
          show mapHasKey (mapInsert p2.connectionsInUse
            (w2.hash w2.nextId) (mkCWC w2.nextId now))
            (w.hash w2.nextId) = true
          rw [← hh2]
          exact mapHasKey_mapInsert_self
        · rw [if_neg hc, if_neg hc] at heq
          simp only [Prod.mk.injEq] at heq
          obtain ⟨hw, hp, hr⟩ := heq
          subst hw
          subst hp
          refine ⟨hh2, ?_⟩
          intro c hcc
          rw [← hr] at hcc
          simp at hcc

/-- Claim C1 (corrected): starting from a pool whose free map is well-keyed
and whose tracked total is at most the capacity, a completed `Checkout`
leaves `|free| + |inUse|` at most capacity + 1 (the inclusive top-up loop
routinely overfills by one even without a checkout-miss), and a `CheckIn` of
the client that `Checkout` returned restores `|free| + |inUse| ≤ capacity`.
The spec's claim that the total never exceeds capacity after a completed
operation is refuted by `c1_counterexample`. -/
theorem c1_bound_after_checkout_checkin (w : World) (now now2 : Int)
    (p : ConnPool) (w' : World) (p' : ConnPool) (r : Option Nat)
    (hnd : NodupKeys p.freeConnections)
    (hkh : KeysAreHash w p.freeConnections)
    (hb : (totalLen p : Int) ≤ p.poolSize)
    (heq : Checkout w now p = (w', p', r)) :
    (totalLen p' : Int) ≤ p.poolSize + 1 ∧
    ∀ c, r = some c →
      (totalLen (CheckIn w' now2 p' c) : Int) ≤ p.poolSize := by
  obtain ⟨h1, h2, h3, h4⟩ := Checkout_bound w now p w' p' r hnd hkh hb heq
  refine ⟨h1, ?_⟩
  intro c hc
  have hk := h4 c hc
  rw [← h3] at hk
  have hx := CheckIn_total_le w' now2 p' c hk (by rw [h2]; exact h1)
  rw [h2] at hx
  exact hx

/-- Witness for C1: the first checkout on a fresh capacity-2 pool leaves 3
tracked connections (at most 2 + 1), and checking the returned client 0 back
in restores the bound 2. -/
theorem c1_witness :
    (totalLen (stateAfterK 0 2 1) : Int) ≤ (CreateConnPool 2).poolSize + 1 ∧
    ∀ c, (some 0 : Option Nat) = some c →
      (totalLen (CheckIn (gw 3) 0 (stateAfterK 0 2 1) c) : Int) ≤
        (CreateConnPool 2).poolSize :=
  c1_bound_after_checkout_checkin goodWorld 0 0 (CreateConnPool 2) (gw 3)
    (stateAfterK 0 2 1) (some 0) (by decide) (by decide) (by decide)
    (Checkout_gw_first 0 2)

/-- Counterexample for C1 as claimed: on a capacity-2 pool the very first
completed `Checkout` leaves 3 tracked connections, and after the
Checkout/CheckIn pair ending the five-operation sequence the total is still
3 > 2, so `|free| + |inUse| ≤ capacity` does not hold after every completed
pair. -/
theorem c1_counterexample :
    totalLen (Checkout goodWorld 0 (CreateConnPool 2)).2.1 = 3 ∧
    totalLen (runOps 0 goodWorld (CreateConnPool 2)
      [Op.checkout, Op.checkout, Op.checkout, Op.checkout,
       Op.checkin 3]).2 = 3 ∧
    (CreateConnPool 2).poolSize = 2 := by decide

/-- Claim C2 (corrected): on a fresh capacity-2 pool with all collaborator
calls succeeding and no expiry between the calls, the first `Checkout`
creates 3 connections (not 2: the initial fill makes 2 and the inclusive
top-up loop one more) and returns client 0 leaving `|free| = 2`, `|inUse| =
1`; the second `Checkout` creates none and returns client 1 leaving
`|free| = 1`, `|inUse| = 2`. -/
theorem c2_first_two_checkouts (now now2 : Int)
    (hfresh : now2 - now ≤ 300000000000) :
    ∃ w1 p1 w2 p2,
      Checkout goodWorld now (CreateConnPool 2) = (w1, p1, some 0) ∧
      w1.nextId = 3 ∧
      p1.freeConnections.length = 2 ∧
      p1.connectionsInUse.length = 1 ∧
      Checkout w1 now2 p1 = (w2, p2, some 1) ∧
      w2.nextId = 3 ∧
      p2.freeConnections.length = 1 ∧
      p2.connectionsInUse.length = 2 := by
  refine ⟨gw 3, stateAfterK now 2 1, gw 3,
    ⟨[(0, mkCWC 0 now), (1, mkCWC 1 now2)], [(2, mkCWC 2 now)], 2,
      300000000000⟩,
    Checkout_gw_first now 2, rfl, rfl, rfl, ?_, rfl, rfl, rfl⟩
  refine Checkout_ret_general (gw 3) now2 (stateAfterK now 2 1) (gw 3)
    (stateAfterK now 2 1) (gw 3) (stateAfterK now 2 1) _ 1 rfl rfl
    (Nat.succ_pos 1) ?_
  rw [show (stateAfterK now 2 1).freeConnections =
    (1, mkCWC 1 now) :: [(2, mkCWC 2 now)] from rfl]
  rw [scanFree_head_valid (gw 3) now2 (stateAfterK now 2 1) 1 (mkCWC 1 now)
    [(2, mkCWC 2 now)]
    (by show ¬(now2 - now > (300000000000 : Int)); omega) rfl]
  rw [show mapDelete (stateAfterK now 2 1).freeConnections 1 =
    [(2, mkCWC 2 now)] from rfl]
  rfl

/-- Witness for C2: the two-checkout scenario evaluated at time 0. -/
theorem c2_witness :
    ∃ w1 p1 w2 p2,
      Checkout goodWorld 0 (CreateConnPool 2) = (w1, p1, some 0) ∧
      w1.nextId = 3 ∧
      p1.freeConnections.length = 2 ∧
      p1.connectionsInUse.length = 1 ∧
      Checkout w1 0 p1 = (w2, p2, some 1) ∧
      w2.nextId = 3 ∧
      p2.freeConnections.length = 1 ∧
      p2.connectionsInUse.length = 2 :=
  c2_first_two_checkouts 0 0 (by decide)

/-- Counterexample for C2 as claimed: the first checkout on a fresh
capacity-2 pool leaves 2 free connections, not 1, because it created 3
connections (the oracle's counter ends at 3). -/
theorem c2_counterexample :
    (Checkout goodWorld 0 (CreateConnPool 2)).2.1.freeConnections.length
      = 2 ∧
    (Checkout goodWorld 0 (CreateConnPool 2)).2.1.connectionsInUse.length
      = 1 ∧
    (Checkout goodWorld 0 (CreateConnPool 2)).1.nextId = 3 := by decide

/-- Claim C3 (corrected): a free connection whose age is strictly greater
than the ttl when the scan encounters it is never the client `Checkout`
returns; but the code compares with strict `>`, so age exactly equal to ttl
is not treated as expired (refuted in `c3_counterexample`), against the
spec's `age ≥ ttl`. -/
theorem c3_strictly_expired_not_returned (w : World) (now : Int)
    (p : ConnPool) (w' : World) (p' : ConnPool) (c : Nat)
    (hnd : NodupKeys p.freeConnections)
    (hdbs : (p.freeConnections.map (fun kv => kv.2.db)).Nodup)
    (hfresh : ∀ kv ∈ p.freeConnections, kv.2.db < w.nextId)
    (heq : Checkout w now p = (w', p', some c)) :
    ∀ kv ∈ p.freeConnections, p.expiry < now - kv.2.creationTime →
      c ≠ kv.2.db :=
  Checkout_expired_not_returned w now p w' p' c hnd hdbs hfresh heq

/-- Witness for C3: a pool holding one strictly expired free connection
(client 0, 400 s old) discards it; the checkout returns the freshly created
client 1, which is distinct from the expired client. -/
theorem c3_witness :
    ((1 : Nat) ≠ (0, mkCWC 0 (-400000000000)).2.db) ∧
    (⟨[], [(0, mkCWC 0 (-400000000000))], 0,
      300000000000⟩ : ConnPool).expiry <
      0 - (0, mkCWC 0 (-400000000000)).2.creationTime := by
  have heq : Checkout (gw 1) 0
      (⟨[], [(0, mkCWC 0 (-400000000000))], 0, 300000000000⟩ : ConnPool) =
      (gw 2, ⟨[(1, mkCWC 1 0)], [], 0, 300000000000⟩, some 1) := rfl
  exact ⟨c3_strictly_expired_not_returned (gw 1) 0
    ⟨[], [(0, mkCWC 0 (-400000000000))], 0, 300000000000⟩ (gw 2)
    ⟨[(1, mkCWC 1 0)], [], 0, 300000000000⟩ 1
    (by decide) (by decide) (by decide) heq
    (0, mkCWC 0 (-400000000000)) (by decide) (by decide), by decide⟩

/-- Counterexample for C3 as claimed: after the first checkout on a
capacity-1 pool, client 1 sits free with creation time 0; a second checkout
at exactly `now = ttl = 300000000000` (age = ttl, so `age ≥ ttl` holds)
still returns client 1. -/
theorem c3_counterexample :
    (Checkout goodWorld 0 (CreateConnPool 1)).2.1.freeConnections =
      [(1, mkCWC 1 0)] ∧
    (CreateConnPool 1).expiry = 300000000000 ∧
    (Checkout (Checkout goodWorld 0 (CreateConnPool 1)).1 300000000000
      (Checkout goodWorld 0 (CreateConnPool 1)).2.1).2.2 = some 1 := by
  decide

/-- Claim C4 (corrected): when `Checkout` returns an error, nothing was
marked in-use (`connectionsInUse` is exactly as before); but the free map is
not rolled back — connections registered by earlier iterations of the failed
fill remain in `free` (refuted in `c4_counterexample`), against the spec's
"pool state left unchanged". -/
theorem c4_error_leaves_inUse_unchanged (w : World) (now : Int)
    (p : ConnPool) (w' : World) (p' : ConnPool)
    (heq : Checkout w now p = (w', p', none)) :
    p'.connectionsInUse = p.connectionsInUse :=
  Checkout_none_inUse w now p w' p' heq

/-- Witness for C4: on the oracle whose second creation fails, the first
checkout on a fresh capacity-2 pool errors out with `connectionsInUse` still
empty. -/
theorem c4_witness :
    (⟨[], [(0, mkCWC 0 0)], 2, 300000000000⟩ : ConnPool).connectionsInUse =
      (CreateConnPool 2).connectionsInUse :=
  c4_error_leaves_inUse_unchanged failSecondWorld 0 (CreateConnPool 2)
    { failSecondWorld with nextId := 2 }
    ⟨[], [(0, mkCWC 0 0)], 2, 300000000000⟩ rfl

/-- Counterexample for C4 as claimed: with the second creation failing, the
first checkout on a fresh capacity-2 pool returns an error, yet client 0 —
created by the first, successful iteration of the aborted fill — remains
registered in the free map, so the pool state was not left as it was. -/
theorem c4_counterexample :
    (Checkout failSecondWorld 0 (CreateConnPool 2)).2.2 = none ∧
    (Checkout failSecondWorld 0 (CreateConnPool 2)).2.1.freeConnections =
      [(0, mkCWC 0 0)] := by decide

/-- Claim C5 (corrected): key-disjointness of `free` and `inUse` holds at
pool creation and is preserved by every `Checkout` and every `CheckIn` of a
previously created client, provided the content-hash identity is injective
on clients; with a colliding hash (possible for an MD5 of serialized
content) a reachable state holds the same key in both maps
(`c5_counterexample`). -/
theorem c5_disjointness (w : World) (now : Int) (p : ConnPool)
    (w' : World) (p' : ConnPool) (r : Option Nat) (c : Nat)
    (hinj : Function.Injective w.hash) (hInv : PoolInv w p) :
    (∀ S : Int, DisjointMaps (CreateConnPool S) ∧
      PoolInv w (CreateConnPool S)) ∧
    (Checkout w now p = (w', p', r) →
      DisjointMaps p' ∧ PoolInv w' p' ∧ w'.hash = w.hash ∧
      ∀ c2, r = some c2 → c2 < w'.nextId) ∧
    (c < w.nextId → DisjointMaps (CheckIn w now p c) ∧
      PoolInv w (CheckIn w now p c)) := by
  refine ⟨?_, ?_, ?_⟩
  · intro S
    exact ⟨(PoolInv_create w S).2.2.2.2.2.2, PoolInv_create w S⟩
  · intro heq
    obtain ⟨hI, hh, _, hr⟩ := Checkout_PoolInv w now p w' p' r hinj hInv heq
    exact ⟨hI.2.2.2.2.2.2, hI, hh, hr⟩
  · intro hc
    have hI := CheckIn_PoolInv w now p c hc hInv
    exact ⟨hI.2.2.2.2.2.2, hI⟩

/-- Witness for C5: on the injective-hash oracle, the first checkout from a
fresh capacity-2 pool preserves disjointness and the full invariant. -/
theorem c5_witness :
    (∀ S : Int, DisjointMaps (CreateConnPool S) ∧
      PoolInv goodWorld (CreateConnPool S)) ∧
    (Checkout goodWorld 0 (CreateConnPool 2) =
        (gw 3, stateAfterK 0 2 1, some 0) →
      DisjointMaps (stateAfterK 0 2 1) ∧ PoolInv (gw 3) (stateAfterK 0 2 1) ∧
      (gw 3).hash = goodWorld.hash ∧
      ∀ c2, (some 0 : Option Nat) = some c2 → c2 < (gw 3).nextId) ∧
    ((5 : Nat) < goodWorld.nextId →
      DisjointMaps (CheckIn goodWorld 0 (CreateConnPool 2) 5) ∧
      PoolInv goodWorld (CheckIn goodWorld 0 (CreateConnPool 2) 5)) :=
  c5_disjointness goodWorld 0 (CreateConnPool 2) (gw 3) (stateAfterK 0 2 1)
    (some 0) 5 (fun _ _ h => h) (PoolInv_create goodWorld 2)

/-- Counterexample for C5 as claimed: on an oracle where client 5's content
hash collides with client 1's, the reachable state after checkout, checkout,
check-in of client 2, checkout holds key 1 in the free map and in the in-use
map simultaneously. -/
theorem c5_counterexample :
    collideWorld.hash 5 = collideWorld.hash 1 ∧
    mapHasKey (runOps 0 collideWorld (CreateConnPool 3)
      [Op.checkout, Op.checkout, Op.checkin 2,
       Op.checkout]).2.freeConnections 1 = true ∧
    mapHasKey (runOps 0 collideWorld (CreateConnPool 3)
      [Op.checkout, Op.checkout, Op.checkin 2,
       Op.checkout]).2.connectionsInUse 1 = true := by decide

/-- Claim C6 (corrected): for a fixed hash function the identity key is
deterministic, so the key `CheckIn` recomputes for a client returned by
`Checkout` is exactly the key `Checkout` registered it under, and the
check-in removes it from `inUse`; but the key is recomputed from content on
every operation rather than assigned once, and it is not unique among live
connections — colliding clients overwrite each other (`c6_counterexample`). -/
theorem c6_key_stability (w : World) (now now2 : Int) (p : ConnPool)
    (w' : World) (p' : ConnPool) (c : Nat)
    (hnd : NodupKeys p.freeConnections)
    (hkh : KeysAreHash w p.freeConnections)
    (heq : Checkout w now p = (w', p', some c)) :
    w'.hash = w.hash ∧
    mapHasKey p'.connectionsInUse (w.hash c) = true ∧
    mapHasKey (CheckIn w' now2 p' c).connectionsInUse (w.hash c) = false := by
  obtain ⟨hh, hreg⟩ := Checkout_registered w now p w' p' (some c) hnd hkh heq
  refine ⟨hh, hreg c rfl, ?_⟩
  rw [← hh]
  exact CheckIn_removes w' now2 p' c

/-- Witness for C6: the first checkout on a fresh capacity-2 pool registers
client 0 under its key, and checking it back in removes that key from
`inUse`. -/
theorem c6_witness :
    (gw 3).hash = goodWorld.hash ∧
    mapHasKey (stateAfterK 0 2 1).connectionsInUse (goodWorld.hash 0) =
      true ∧
    mapHasKey (CheckIn (gw 3) 0 (stateAfterK 0 2 1) 0).connectionsInUse
      (goodWorld.hash 0) = false :=
  c6_key_stability goodWorld 0 0 (CreateConnPool 2) (gw 3)
    (stateAfterK 0 2 1) 0 (by decide) (by decide) (Checkout_gw_first 0 2)

/-- Counterexample for C6 as claimed: when every client serializes to the
same content every key collides; the first checkout on a fresh capacity-2
pool then creates 4 clients (counter ends at 4) but tracks only 1 — each
insertion overwrote the previous entry — so the key is not unique among live
connections and does depend on connection content. -/
theorem c6_counterexample :
    constHashWorld.hash 1 = constHashWorld.hash 2 ∧
    (Checkout constHashWorld 0 (CreateConnPool 2)).1.nextId = 4 ∧
    totalLen (Checkout constHashWorld 0 (CreateConnPool 2)).2.1 = 1 := by
  decide

/-- Claim C7 (corrected): `CheckIn` removes the client's key from `inUse`
unconditionally and has no failure path; it re-inserts the connection into
`free` (with `createdAt` refreshed) exactly when `|free| + |inUse|` measured
after the removal is below capacity.  Checking in a tracked connection when
the total equals capacity therefore leaves the total unchanged but the
connection IS re-inserted into `free` — the removal first brings the total
below capacity — contrary to the spec's "dropped, not added to free"; only
an untracked check-in at or above capacity leaves `free` untouched. -/
theorem c7_checkin_semantics (w : World) (now : Int) (p : ConnPool)
    (c : Nat) :
    mapHasKey (CheckIn w now p c).connectionsInUse (w.hash c) = false ∧
    (mapHasKey p.connectionsInUse (w.hash c) = true →
      NodupKeys p.connectionsInUse →
      mapHasKey p.freeConnections (w.hash c) = false →
      (totalLen p : Int) = p.poolSize →
      totalLen (CheckIn w now p c) = totalLen p ∧
      mapHasKey (CheckIn w now p c).freeConnections (w.hash c) = true) ∧
    (mapHasKey p.connectionsInUse (w.hash c) = false →
      (CheckIn w now p c).connectionsInUse = p.connectionsInUse ∧
      (p.poolSize ≤ (totalLen p : Int) →
        (CheckIn w now p c).freeConnections = p.freeConnections)) :=
  ⟨CheckIn_removes w now p c,
   fun hk hnd hfree htot =>
     CheckIn_tracked_at_capacity w now p c hk hnd hfree htot,
   fun hk => CheckIn_untracked w now p c hk⟩

/-- Witness for C7: checking client 1 in at a state with `inUse = {1, 2}`,
`free = ∅` and capacity 2 (total = capacity) keeps the total at 2 and puts
key 1 into the free map. -/
theorem c7_witness :
    totalLen (CheckIn (gw 3) 0
      (⟨[(1, mkCWC 1 0), (2, mkCWC 2 0)], [], 2,
        300000000000⟩ : ConnPool) 1) =
      totalLen (⟨[(1, mkCWC 1 0), (2, mkCWC 2 0)], [], 2,
        300000000000⟩ : ConnPool) ∧
    mapHasKey (CheckIn (gw 3) 0
      (⟨[(1, mkCWC 1 0), (2, mkCWC 2 0)], [], 2,
        300000000000⟩ : ConnPool) 1).freeConnections ((gw 3).hash 1) =
      true :=
  (c7_checkin_semantics (gw 3) 0
    ⟨[(1, mkCWC 1 0), (2, mkCWC 2 0)], [], 2, 300000000000⟩ 1).2.1
    (by decide) (by decide) (by decide) (by decide)

/-- Counterexample for C7 as claimed: after three checkouts and one check-in
on a capacity-2 pool the reachable state has `|free| + |inUse| = 2 =
capacity`; checking in the tracked client 1 there re-inserts key 1 into the
free map — the connection is not dropped. -/
theorem c7_counterexample :
    totalLen (runOps 0 goodWorld (CreateConnPool 2)
      [Op.checkout, Op.checkout, Op.checkout, Op.checkin 0]).2 = 2 ∧
    (runOps 0 goodWorld (CreateConnPool 2)
      [Op.checkout, Op.checkout, Op.checkout,
       Op.checkin 0]).2.poolSize = 2 ∧
    mapHasKey (CheckIn (runOps 0 goodWorld (CreateConnPool 2)
        [Op.checkout, Op.checkout, Op.checkout, Op.checkin 0]).1 0
      (runOps 0 goodWorld (CreateConnPool 2)
        [Op.checkout, Op.checkout, Op.checkout, Op.checkin 0]).2
      1).freeConnections 1 = true := by decide

/-- Claim C8 (corrected): for `1 ≤ N ≤ capacity` on the all-succeeding
oracle, `N` checkouts from a fresh pool return the `N` distinct clients
`0, …, N − 1`, and after checking all of them back in the pool ends with
`|inUse| = 0` but `|free| = capacity`, not `N`: the fill phases created
`capacity + 1` connections, the first check-in is dropped at the inclusive
bound and every later one is re-inserted. -/
theorem c8_checkout_checkin_accounting (t : Int) (S N : Nat) (hN1 : 1 ≤ N)
    (hNS : N ≤ S) :
    returnedClients t goodWorld (CreateConnPool (S : Int)) N =
      (List.range N).map some ∧
    (runOps t goodWorld (CreateConnPool (S : Int))
      (List.replicate N Op.checkout ++
       (List.range N).map Op.checkin)).2.freeConnections.length = S ∧
    (runOps t goodWorld (CreateConnPool (S : Int))
      (List.replicate N Op.checkout ++
       (List.range N).map Op.checkin)).2.connectionsInUse = [] := by
  obtain ⟨M, rfl⟩ : ∃ M, N = M + 1 := ⟨N - 1, by omega⟩
  refine ⟨returnedClients_full t S M hNS, ?_, ?_⟩
  · rw [runOps_full t S M hNS]
    exact (stateDuringCI_final t S (M + 1) (by omega) hNS).1
  · rw [runOps_full t S M hNS]
    exact (stateDuringCI_final t S (M + 1) (by omega) hNS).2

/-- Witness for C8: one checkout and one check-in on a fresh capacity-2
pool: the checkout returns client 0 and the final state has 2 free
connections and none in use. -/
theorem c8_witness :
    returnedClients 0 goodWorld (CreateConnPool ((2 : Nat) : Int)) 1 =
      (List.range 1).map some ∧
    (runOps 0 goodWorld (CreateConnPool ((2 : Nat) : Int))
      (List.replicate 1 Op.checkout ++
       (List.range 1).map Op.checkin)).2.freeConnections.length = 2 ∧
    (runOps 0 goodWorld (CreateConnPool ((2 : Nat) : Int))
      (List.replicate 1 Op.checkout ++
       (List.range 1).map Op.checkin)).2.connectionsInUse = [] :=
  c8_checkout_checkin_accounting 0 2 1 (by decide) (by decide)

/-- Counterexample for C8 as claimed: with `N = 1 ≤ capacity = 2`, checking
out the one connection the checkout returned (client 0) and checking it back
in ends with `|free| = 2`, not `N = 1` (and `|inUse| = 0`). -/
theorem c8_counterexample :
    (Checkout goodWorld 0 (CreateConnPool 2)).2.2 = some 0 ∧
    (runOps 0 goodWorld (CreateConnPool 2)
      [Op.checkout, Op.checkin 0]).2.freeConnections.length = 2 ∧
    (runOps 0 goodWorld (CreateConnPool 2)
      [Op.checkout, Op.checkin 0]).2.connectionsInUse = [] := by decide

/-- Claim C10 (confirmed): a pool created with `poolSize ≤ 0` never reports
exhaustion: when creations (and, where taken, validations) succeed, the
first `Checkout` on the empty pool creates a connection, returns it (a
`some` result, the nil-error case) and leaves one tracked connection —
exceeding the configured capacity, which is below 1.  For `poolSize = 0` the
inclusive top-up loop creates the connection; for negative sizes the
checkout-miss path does. -/
theorem c10_negative_capacity (w : World) (now : Int) (S : Int)
    (hS : S ≤ 0)
    (hcreate : ∀ n, w.createOk n = true)
    (hvalidate : ∀ n, w.validateOk n = true) :
    (∃ c, (Checkout w now (CreateConnPool S)).2.2 = some c) ∧
    totalLen (Checkout w now (CreateConnPool S)).2.1 = 1 ∧
    (CreateConnPool S).poolSize < 1 ∧
    (Checkout w now (CreateConnPool S)).1.nextId = w.nextId + 1 := by
  have hps : (CreateConnPool S).poolSize < 1 := by
    show S < 1
    omega
  by_cases hS0 : S = 0
  · subst hS0
    have hcBool : (w.createOk w.nextId && w.validateOk w.nextId) = true := by
      rw [hcreate, hvalidate]
      rfl
    have h2 : fillLoop now w (CreateConnPool (0 : Int))
        (gapFillCount (CreateConnPool (0 : Int))) =
        ({ w with nextId := w.nextId + 1 },
         ⟨[], [(w.hash w.nextId, mkCWC w.nextId now)], 0, 300000000000⟩,
         true) := by
      rw [show gapFillCount (CreateConnPool (0 : Int)) = 0 + 1 from rfl]
      rw [fillLoop_succ_pos now w (CreateConnPool (0 : Int)) 0 hcBool]
      rfl
    have hscan : scanFree { w with nextId := w.nextId + 1 } now
        (⟨[], [(w.hash w.nextId, mkCWC w.nextId now)], 0,
          300000000000⟩ : ConnPool)
        ((w.hash w.nextId, mkCWC w.nextId now) :: []) =
        ((⟨[(w.hash w.nextId, mkCWC w.nextId now)], [], 0,
           300000000000⟩ : ConnPool), ScanResult.ret w.nextId) := by
      rw [scanFree_head_valid { w with nextId := w.nextId + 1 } now
        (⟨[], [(w.hash w.nextId, mkCWC w.nextId now)], 0,
          300000000000⟩ : ConnPool) (w.hash w.nextId) (mkCWC w.nextId now)
        []
        (by show ¬(now - now > (300000000000 : Int)); omega)
        (by show w.validateOk w.nextId = true; exact hvalidate w.nextId)]
      rw [show mapDelete
        ((⟨[], [(w.hash w.nextId, mkCWC w.nextId now)], 0,
          300000000000⟩ : ConnPool)).freeConnections (w.hash w.nextId) =
        ([] : ConnMap) from mapDelete_cons rfl]
      rfl
    have heq := Checkout_ret_general w now (CreateConnPool (0 : Int)) w
      (CreateConnPool (0 : Int)) { w with nextId := w.nextId + 1 }
      (⟨[], [(w.hash w.nextId, mkCWC w.nextId now)], 0,
        300000000000⟩ : ConnPool)
      (⟨[(w.hash w.nextId, mkCWC w.nextId now)], [], 0,
        300000000000⟩ : ConnPool)
      w.nextId rfl h2 Nat.one_pos hscan
    rw [heq]
    exact ⟨⟨w.nextId, rfl⟩, rfl, hps, rfl⟩
  · have hh1 : (if (CreateConnPool S).freeConnections.length == 0 &&
        (CreateConnPool S).connectionsInUse.length == 0 then
        fillLoop now w (CreateConnPool S) (CreateConnPool S).poolSize.toNat
      else (w, CreateConnPool S, true)) = (w, CreateConnPool S, true) := by
      rw [show (CreateConnPool S).poolSize.toNat = 0 from by
        show S.toNat = 0
        omega]
      rw [if_pos (show (((CreateConnPool S).freeConnections.length == 0) &&
        ((CreateConnPool S).connectionsInUse.length == 0)) = true from rfl)]
      rfl
    have hgap : gapFillCount (CreateConnPool S) = 0 := by
      show (S + 1 - ((0 : Int) + (0 : Int))).toNat = 0
      omega
    have h2 : fillLoop now w (CreateConnPool S)
        (gapFillCount (CreateConnPool S)) = (w, CreateConnPool S, true) := by
      rw [hgap]
      rfl
    have hmiss := Checkout_miss_empty w now (CreateConnPool S) w
      (CreateConnPool S) w (CreateConnPool S) hh1 h2 rfl
    rw [hmiss, checkoutMiss_eq]
    rw [if_pos (hcreate w.nextId), if_pos (hcreate w.nextId)]
    exact ⟨⟨w.nextId, rfl⟩, rfl, hps, rfl⟩

/-- Witness for C10: a pool of capacity −1 on the all-succeeding oracle:
the first checkout returns a client and leaves one tracked connection, above
the negative capacity. -/
theorem c10_witness :
    (∃ c, (Checkout goodWorld 0 (CreateConnPool (-1))).2.2 = some c) ∧
    totalLen (Checkout goodWorld 0 (CreateConnPool (-1))).2.1 = 1 ∧
    (CreateConnPool (-1)).poolSize < 1 ∧
    (Checkout goodWorld 0 (CreateConnPool (-1))).1.nextId =
      goodWorld.nextId + 1 :=
  c10_negative_capacity goodWorld 0 (-1) (by decide) (fun _ => rfl)
    (fun _ => rfl)

end Pool
